import Mathlib

/-!
# Formal model of the snake game engine (`src/script.js`)

This file is a shallow embedding of the single-player / vs-AI simulation
engine of the snake game: grid geometry, the snake and food entities, the
step engine (`stepSnake`), the food spawner (`placeFood`), the effect
resolver (`consumeFood`, `handleFoodCollisions`), the collision resolver
(`handleCollisionsSingleMode`), match initialisation (`initGame`), the
per-tick driver (`gameTick`), and the AI pathfinding search (`bfsPath`).

Modelling conventions:
* JS numbers holding cell coordinates, scores and intervals are embedded as
  `Int` (all relevant operations stay integral); the snake speed multiplier,
  which is a genuine float (`*= 1.03`), is embedded as `ℚ` with the factor
  `103/100`; `Math.floor` of a quotient is `Int.fdiv`.
* `Math.random()` driven choices are oracle parameters: cell samplers are
  functions `Nat → Cell` giving the successive `randCell()` results, the
  special subtype and the 60% coin are plain parameters.  Transition
  relations quantify over the oracles, which soundly covers every run.
* Mutation of the global game variables is explicit state passing over
  `GameState`.  Two ghost fields (`eatenLog`, `events`) record which snake
  consumed which food and which death branch fired; no game logic reads
  them.
* Timers (`setInterval`/`setTimeout`) become separate transitions of the
  `Reachable` relation: the 10-second special-food timer and the 3-second
  slow-effect revert.
-/

namespace SnakeGame

/-- Cells per side of the square grid (`GRID = 30`). -/
def GRID : Int := 30

/-- Base milliseconds per step (`BASE_TICK = 150`). -/
def BASE_TICK : Int := 150

/-- Fastest interval after speedups (`MIN_TICK = 60`). -/
def MIN_TICK : Int := 60

/-- Score gained per normal food (`SCORE_PER_FOOD = 1`). -/
def SCORE_PER_FOOD : Int := 1

/-- A grid cell, the `{x, y}` pairs of the source.  Source `eq(a,b)` is
componentwise equality, i.e. equality of `Cell`. -/
structure Cell where
  x : Int
  y : Int
deriving DecidableEq, Repr

/-- Source `insideGrid(p)`: `p.x>=0 && p.x<GRID && p.y>=0 && p.y<GRID`. -/
def insideGrid (p : Cell) : Bool :=
  decide (0 ≤ p.x) && decide (p.x < GRID) && decide (0 ≤ p.y) && decide (p.y < GRID)

/-- The four movement directions. -/
inductive Direction
  | up
  | down
  | left
  | right
deriving DecidableEq, Repr

/-- The `switch(dir)` of `stepSnake`: offset a head cell one step. -/
def moveHead (h : Cell) : Direction → Cell
  | .up => { h with y := h.y - 1 }
  | .down => { h with y := h.y + 1 }
  | .left => { h with x := h.x - 1 }
  | .right => { h with x := h.x + 1 }

/-- A snake as built by `makeSnake` (the rendering-only `color` field is
omitted; the AI difficulty tag only influences the abstracted decision
oracle, see `gameTick`). -/
structure Snake where
  body : List Cell
  dir : Direction
  alive : Bool
  pendingGrow : Nat
  speedMultiplier : ℚ
deriving DecidableEq, Repr

/-- Source `makeSnake(initialCells, color)`. -/
def makeSnake (initialCells : List Cell) : Snake :=
  { body := initialCells
    dir := Direction.right
    alive := true
    pendingGrow := 0
    speedMultiplier := 1 }

/-- Food kinds. -/
inductive FoodType
  | normal
  | special
deriving DecidableEq, Repr

/-- Subtypes of special food. -/
inductive SpecialSubtype
  | bonus
  | slow
  | poison
  | invisible
deriving DecidableEq, Repr

/-- A food item; the wall-clock `spawnedAt` timestamp is omitted (it is never
read by the engine).  `subtype` is `some _` exactly for special food. -/
structure Food where
  x : Int
  y : Int
  type : FoodType
  subtype : Option SpecialSubtype
deriving DecidableEq, Repr

/-- Source `eq(f, head)` applied to a food and a cell. -/
def foodAtCell (f : Food) (c : Cell) : Bool :=
  decide (f.x = c.x) && decide (f.y = c.y)

/-- Play mode of a local match (multiplayer is excluded: in that mode the
client performs no simulation). -/
inductive Mode
  | single
  | ai
deriving DecidableEq, Repr

/-- Which locally simulated snake an operation refers to. -/
inductive Eater
  | player
  | ai
deriving DecidableEq, Repr

/-- The argument of `onPlayerDie`. -/
inductive Who
  | player
  | ai
  | both
deriving DecidableEq, Repr

/-- Classification of the code branch that killed a snake.  `self` is the
self-collision loop, `wall` the out-of-bounds branch of `stepSnake`,
`headToHead` the mutual head collision (spec cause `mutual`), `intoBody`
the head-into-other-body loops (spec cause `collision`). -/
inductive Cause
  | wall
  | self
  | headToHead
  | intoBody
deriving DecidableEq, Repr

/-- Ghost death event: which `onPlayerDie` call fired and from which branch. -/
structure GEvent where
  who : Who
  cause : Cause
deriving DecidableEq, Repr

/-- The mutable global state of one local match. -/
structure GameState where
  mode : Mode
  score : Int
  tickInterval : Int
  speedBoost : Int
  invisibleTailTicks : Int
  gameTime : ℚ
  playerDir : Direction
  playerSnake : Snake
  aiSnake : Option Snake
  foods : List Food
  eatenLog : List (Eater × Food)
  events : List GEvent
deriving DecidableEq, Repr

/-- Source `collisionAt(pos)`: does any snake body segment occupy `pos`
(alive or not, exactly as in the code). -/
def collisionAt (s : GameState) (pos : Cell) : Bool :=
  s.playerSnake.body.any (fun c => c == pos) ||
    (s.aiSnake.map (fun a => a.body.any (fun c => c == pos))).getD false

/-- The food record `placeFood` builds at a free cell: `subtype` is filled
from `randomSpecialSubtype()` (modelled by `subO`) only for special food. -/
def mkPlacedFood (ty : FoodType) (subO : SpecialSubtype) (pos : Cell) : Food :=
  { x := pos.x, y := pos.y, type := ty
    subtype := if ty = FoodType.special then some subO else none }

/-- The attempt loop of `placeFood`: `remaining` attempts left, `attempt` is
the index into the `randCell()` oracle. -/
def placeFoodLoop (s : GameState) (ty : FoodType) (cellO : Nat → Cell)
    (subO : SpecialSubtype) : Nat → Nat → Option Food × GameState
  | 0, _ => (none, s)
  | remaining + 1, attempt =>
    let pos := cellO attempt
    if collisionAt s pos then
      placeFoodLoop s ty cellO subO remaining (attempt + 1)
    else
      let f : Food := mkPlacedFood ty subO pos
      (some f, { s with foods := s.foods ++ [f] })

/-- Source `placeFood(type)`: sample up to 200 cells from the oracle, reject
occupied ones, push the food and return it, or return `none` after 200
failures.  `subO` models `randomSpecialSubtype()` (unused for normal food). -/
def placeFood (s : GameState) (ty : FoodType) (cellO : Nat → Cell)
    (subO : SpecialSubtype) : Option Food × GameState :=
  placeFoodLoop s ty cellO subO 200 0

/-- Apply a function to the snake the `snake` alias of `consumeFood` points at. -/
def modifySnake (s : GameState) (eater : Eater) (g : Snake → Snake) : GameState :=
  match eater with
  | Eater.player => { s with playerSnake := g s.playerSnake }
  | Eater.ai => { s with aiSnake := s.aiSnake.map g }

/-- Body of the snake an `Eater` refers to (empty when there is no AI snake). -/
def eaterBody (s : GameState) (eater : Eater) : List Cell :=
  match eater with
  | Eater.player => s.playerSnake.body
  | Eater.ai => (s.aiSnake.map (fun a => a.body)).getD []

/-- Pending growth of the snake an `Eater` refers to. -/
def eaterPendingGrow (s : GameState) (eater : Eater) : Nat :=
  match eater with
  | Eater.player => s.playerSnake.pendingGrow
  | Eater.ai => (s.aiSnake.map (fun a => a.pendingGrow)).getD 0

/-- Speed multiplier of the snake an `Eater` refers to. -/
def eaterSpeedMultiplier (s : GameState) (eater : Eater) : ℚ :=
  match eater with
  | Eater.player => s.playerSnake.speedMultiplier
  | Eater.ai => (s.aiSnake.map (fun a => a.speedMultiplier)).getD 1

/-- Source `consumeFood(snake, food, eater)`.  The first ghost step records
the consumption.  JS `body.pop()` on an empty array is a no-op, exactly like
`List.dropLast` on `[]`.  The 3-second revert of the slow effect is the
separate `slowRevertFire` transition. -/
def consumeFood (s : GameState) (eater : Eater) (f : Food)
    (cellO : Nat → Cell) : GameState :=
  let s0 := { s with eatenLog := s.eatenLog ++ [(eater, f)] }
  if f.type = FoodType.normal then
    let s1 := modifySnake s0 eater (fun sn => { sn with pendingGrow := sn.pendingGrow + 1 })
    let s2 := if eater = Eater.player then { s1 with score := s1.score + SCORE_PER_FOOD } else s1
    let s3 := modifySnake s2 eater
      (fun sn => { sn with speedMultiplier := sn.speedMultiplier * (103 / 100 : ℚ) })
    let s4 := { s3 with speedBoost := max 0 (s3.speedBoost - 2) }
    (placeFood s4 FoodType.normal cellO SpecialSubtype.bonus).2
  else
    match f.subtype with
    | some SpecialSubtype.bonus =>
      let s1 := if eater = Eater.player then { s0 with score := s0.score + 5 } else s0
      modifySnake s1 eater (fun sn => { sn with pendingGrow := sn.pendingGrow + 2 })
    | some SpecialSubtype.slow =>
      { s0 with tickInterval := min 400 (s0.tickInterval + 120) }
    | some SpecialSubtype.poison =>
      let s1 := if eater = Eater.player then { s0 with score := max 0 (s0.score - 2) } else s0
      modifySnake s1 eater (fun sn => { sn with body := sn.body.dropLast.dropLast })
    | some SpecialSubtype.invisible =>
      if eater = Eater.player
      then { s0 with invisibleTailTicks := Int.fdiv 5000 s0.tickInterval }
      else s0
    | none => s0

/-- The descending-index scan of `handleFoodCollisions`, as a recursion that
processes the last array element first (index `i` descends).  Returns the
kept original foods (in order) and the state after all consumptions; newly
spawned foods accumulate in the state, to be appended at the end, which is
where `foods.push` puts them.  `cellO k` is the `randCell()` stream of the
`placeFood` call made while the suffix of length `k` is left, so distinct
calls draw independent randomness.  A missing head (`body[0]` of an empty
body) compares unequal to every food. -/
def hfcAux (cellO : Nat → Nat → Cell) : List Food → GameState → List Food × GameState
  | [], s => ([], s)
  | f :: rest, s =>
    let r := hfcAux cellO rest s
    let s1 := r.2
    if (s1.playerSnake.body.head?.map (foodAtCell f)).getD false then
      (r.1, consumeFood s1 Eater.player f (cellO rest.length))
    else
      match s1.aiSnake with
      | some a =>
        if a.alive && (a.body.head?.map (foodAtCell f)).getD false then
          (r.1, consumeFood s1 Eater.ai f (cellO rest.length))
        else
          (f :: r.1, s1)
      | none => (f :: r.1, s1)

/-- Source `handleFoodCollisions()`. -/
def handleFoodCollisions (s : GameState) (cellO : Nat → Nat → Cell) : GameState :=
  let r := hfcAux cellO s.foods { s with foods := [] }
  { r.2 with foods := r.1 ++ r.2.foods }

/-- Source `stepSnake(snake, dir)` on the snake record alone; the returned
flag reports the out-of-bounds death branch (the `onPlayerDie` call).  An
empty body makes the JS head spread produce `NaN` coordinates, which fail
`insideGrid`, so that case also takes the death branch. -/
def stepSnake (sn : Snake) (dir : Direction) : Snake × Bool :=
  if !sn.alive then (sn, false)
  else
    match sn.body with
    | [] => ({ sn with alive := false }, true)
    | h :: _ =>
      let nh := moveHead h dir
      if !insideGrid nh then ({ sn with alive := false }, true)
      else
        let body1 := nh :: sn.body
        if 0 < sn.pendingGrow then
          ({ sn with body := body1, pendingGrow := sn.pendingGrow - 1 }, false)
        else
          ({ sn with body := body1.dropLast }, false)

/-- `stepSnake` acting on the game state: updates the stepped snake and emits
the wall death event (`onPlayerDie(snake === playerSnake ? "player" : "ai")`). -/
def stepSnakeInState (s : GameState) (who : Eater) (dir : Direction) : GameState :=
  match who with
  | Eater.player =>
    let r := stepSnake s.playerSnake dir
    { s with playerSnake := r.1
             events := s.events ++ if r.2 then [⟨Who.player, Cause.wall⟩] else [] }
  | Eater.ai =>
    match s.aiSnake with
    | none => s
    | some a =>
      let r := stepSnake a dir
      { s with aiSnake := some r.1
               events := s.events ++ if r.2 then [⟨Who.ai, Cause.wall⟩] else [] }

/-- Kill the player snake and log the event. -/
def killPlayer (s : GameState) (c : Cause) : GameState :=
  { s with playerSnake := { s.playerSnake with alive := false }
           events := s.events ++ [⟨Who.player, c⟩] }

/-- Kill the AI snake and log the event. -/
def killAi (s : GameState) (c : Cause) : GameState :=
  { s with aiSnake := s.aiSnake.map (fun a => { a with alive := false })
           events := s.events ++ [⟨Who.ai, c⟩] }

/-- The player self-collision loop of `handleCollisionsSingleMode`: the head
is read once; every matching non-head segment kills and logs. -/
def playerSelfCheck (s : GameState) : GameState :=
  if s.playerSnake.alive then
    match s.playerSnake.body with
    | [] => s
    | h :: t => t.foldl (fun st seg => if seg = h then killPlayer st Cause.self else st) s
  else s

/-- The AI section of `handleCollisionsSingleMode`, entered when an AI snake
exists and is alive; `headA`/`tailA` are its head and tail at entry (the
bodies are not mutated by this function, only `alive` flags are). -/
def aiSection (s : GameState) (headA : Cell) (tailA : List Cell) (aiBody : List Cell) :
    GameState :=
  let s2 := tailA.foldl (fun st seg => if seg = headA then killAi st Cause.self else st) s
  let s3 :=
    if s2.playerSnake.alive &&
        (s2.playerSnake.body.head?.map (fun ph => ph == headA)).getD false then
      { s2 with playerSnake := { s2.playerSnake with alive := false }
                aiSnake := s2.aiSnake.map (fun a => { a with alive := false })
                events := s2.events ++ [⟨Who.both, Cause.headToHead⟩] }
    else s2
  let s4 :=
    if s3.playerSnake.alive then
      match s3.playerSnake.body.head? with
      | none => s3
      | some ph =>
        aiBody.foldl (fun st seg => if seg = ph then killPlayer st Cause.intoBody else st) s3
    else s3
  if (s4.aiSnake.map (fun a => a.alive)).getD false then
    s4.playerSnake.body.foldl
      (fun st seg => if seg = headA then killAi st Cause.intoBody else st) s4
  else s4

/-- Source `handleCollisionsSingleMode()`. -/
def handleCollisionsSingleMode (s : GameState) : GameState :=
  let s1 := playerSelfCheck s
  match s1.aiSnake with
  | none => s1
  | some a0 =>
    if a0.alive then
      match a0.body with
      | [] => s1
      | headA :: tailA => aiSection s1 headA tailA a0.body
    else s1

/-- Source `setSpeedFromScore()`:
`Math.max(MIN_TICK, BASE_TICK - Math.floor(score/5)*10 - speedBoost)`
(re-arming the timer when the value changes is not part of the state). -/
def setSpeedFromScore (s : GameState) : GameState :=
  { s with tickInterval := max MIN_TICK (BASE_TICK - Int.fdiv s.score 5 * 10 - s.speedBoost) }

/-- The delayed revert scheduled by the slow special food (the `setTimeout`
body): recompute the interval from the current score and speed boost. -/
def slowRevertFire (s : GameState) : GameState :=
  { s with tickInterval := max MIN_TICK (BASE_TICK - Int.fdiv s.score 5 * 10 - s.speedBoost) }

/-- The 10-second special-food timer body: if some special food exists, do
nothing; otherwise with probability 0.6 (`coin`) place one. -/
def specialTimerFire (s : GameState) (coin : Bool) (cellO : Nat → Cell)
    (subO : SpecialSubtype) : GameState :=
  if s.foods.any (fun f => f.type == FoodType.special) then s
  else if coin then (placeFood s FoodType.special cellO subO).2 else s

/-- The WASD keydown handler: each key turns the player unless it reverses
the current direction. -/
def applyKey (s : GameState) (k : Direction) : GameState :=
  match k with
  | Direction.up => if s.playerDir = Direction.down then s else { s with playerDir := Direction.up }
  | Direction.down => if s.playerDir = Direction.up then s else { s with playerDir := Direction.down }
  | Direction.left => if s.playerDir = Direction.right then s else { s with playerDir := Direction.left }
  | Direction.right => if s.playerDir = Direction.left then s else { s with playerDir := Direction.right }

/-- The `aiStep()` call of the tick, with the decision logic (random moves,
nearest-food targeting and `bfsPath`, per difficulty) abstracted into the
nondeterministically chosen direction `aiDir`; quantifying over `aiDir` in
`Reachable` soundly covers every choice the source can make.  `aiStep`
returns at once when the AI snake is dead, otherwise stores the chosen
direction and steps the snake. -/
def aiStepAbs (s : GameState) (aiDir : Direction) : GameState :=
  match s.aiSnake with
  | none => s
  | some a =>
    if !a.alive then s
    else stepSnakeInState { s with aiSnake := some { a with dir := aiDir } } Eater.ai aiDir

/-- Source `gameTick()` for single/AI mode. -/
def gameTick (s : GameState) (aiDir : Direction) (cellO : Nat → Nat → Cell) : GameState :=
  let s0 := { s with gameTime := s.gameTime + (s.tickInterval : ℚ) / 1000 }
  let s1 := stepSnakeInState s0 Eater.player s0.playerDir
  let s2 :=
    if s1.mode = Mode.ai && (s1.aiSnake.map (fun a => a.alive)).getD false
    then aiStepAbs s1 aiDir else s1
  let s3 := handleFoodCollisions s2 cellO
  let s4 := handleCollisionsSingleMode s3
  let s5 := setSpeedFromScore s4
  if 0 < s5.invisibleTailTicks
  then { s5 with invisibleTailTicks := s5.invisibleTailTicks - 1 }
  else s5

/-- Source `initGame()`.  The first normal food is placed after the new
player snake is created but before `aiSnake` is reassigned, so its collision
check sees the previous match's AI snake (`prevAi`; `none` on first start). -/
def initGame (mode : Mode) (prevAi : Option Snake) (cellO : Nat → Cell) : GameState :=
  let mid : Int := 15
  let player := makeSnake [⟨mid - 2, mid⟩, ⟨mid - 3, mid⟩, ⟨mid - 4, mid⟩]
  let s0 : GameState :=
    { mode := mode
      score := 0
      tickInterval := BASE_TICK
      speedBoost := 0
      invisibleTailTicks := 0
      gameTime := 0
      playerDir := Direction.right
      playerSnake := player
      aiSnake := prevAi
      foods := []
      eatenLog := []
      events := [] }
  let s1 := (placeFood s0 FoodType.normal cellO SpecialSubtype.bonus).2
  { s1 with
    aiSnake :=
      if mode = Mode.ai
      then some { makeSnake [⟨6, 6⟩, ⟨5, 6⟩, ⟨4, 6⟩] with dir := Direction.right }
      else none }

/-- States a solo or vs-AI match can reach: an initialisation (fresh start or
restart, with any randomness), followed by any interleaving of ticks, key
presses, special-food timer firings and slow-effect reverts. -/
inductive Reachable : GameState → Prop
  | init (mode : Mode) (prevAi : Option Snake) (cellO : Nat → Cell) :
      Reachable (initGame mode prevAi cellO)
  | tick {s : GameState} (h : Reachable s) (aiDir : Direction) (cellO : Nat → Nat → Cell) :
      Reachable (gameTick s aiDir cellO)
  | keydown {s : GameState} (h : Reachable s) (k : Direction) :
      Reachable (applyKey s k)
  | specialTick {s : GameState} (h : Reachable s) (coin : Bool) (cellO : Nat → Cell)
      (subO : SpecialSubtype) : Reachable (specialTimerFire s coin cellO subO)
  | slowRevert {s : GameState} (h : Reachable s) : Reachable (slowRevertFire s)

/-! ## The AI pathfinding search (`bfsPath`) -/

/-- A queue entry of `bfsPath`: the frontier cell and the path that reached
it (head of the path is the start, last element is the cell). -/
abbrev QEntry := Cell × List Cell

/-- The neighbor array built inside the BFS loop, in source order. -/
def neighborsOf (p : Cell) : List Cell :=
  [⟨p.x + 1, p.y⟩, ⟨p.x - 1, p.y⟩, ⟨p.x, p.y + 1⟩, ⟨p.x, p.y - 1⟩]

/-- The inner neighbor loop of `bfsPath`: skip cells outside the grid, cells
already visited, and obstacle cells other than the goal; otherwise mark
visited and enqueue with the extended path. -/
def expandFold (goal : Cell) (obstacles : List Cell) (path : List Cell)
    (acc : List QEntry × List Cell) (n : Cell) : List QEntry × List Cell :=
  if !insideGrid n then acc
  else if n ∈ acc.2 then acc
  else if n ∈ obstacles ∧ n ≠ goal then acc
  else (acc.1 ++ [(n, path ++ [n])], n :: acc.2)

/-- The `while(q.length)` loop of `bfsPath`, with an explicit iteration bound
(the JS loop needs none; `bfsAux_fuel_sufficient`-style reasoning inside the
main proof shows `BFS_FUEL` is never exhausted). -/
def bfsAux (goal : Cell) (obstacles : List Cell) :
    Nat → List QEntry → List Cell → Option (List Cell)
  | 0, _, _ => none
  | _ + 1, [], _ => none
  | fuel + 1, (p, path) :: q, visited =>
    if p = goal then some path
    else
      let r := (neighborsOf p).foldl (expandFold goal obstacles path) (q, visited)
      bfsAux goal obstacles fuel r.1 r.2

/-- Iteration bound for `bfsAux`: every loop iteration either dequeues without
enqueuing (queue shrinks) or freshly visits the cells it enqueues, and at most
`30 * 30 + 1` cells (the grid plus possibly an out-of-grid start) can ever be
visited, so `901 + 1` iterations more than suffice; we take 1000. -/
def BFS_FUEL : Nat := 1000

/-- Source `bfsPath(start, goal, selfSnake)`, with the obstacle set (the
union of the snake bodies, built from the globals in the source) passed as a
parameter. -/
def bfsPath (start goal : Cell) (obstacles : List Cell) : Option (List Cell) :=
  bfsAux goal obstacles BFS_FUEL [(start, [start])] [start]

/-- The obstacle set the source builds: all player and AI body cells. -/
def snakeObstacles (s : GameState) : List Cell :=
  s.playerSnake.body ++ (s.aiSnake.map (fun a => a.body)).getD []

/-- One BFS hop: `b` is one of the 4-connected neighbors of `a`. -/
def Adj (a b : Cell) : Prop := b ∈ neighborsOf a

instance : DecidablePred fun ab : Cell × Cell => Adj ab.1 ab.2 := fun _ =>
  inferInstanceAs (Decidable (_ ∈ _))

instance (a b : Cell) : Decidable (Adj a b) := inferInstanceAs (Decidable (_ ∈ _))

/-- A cell the BFS loop may step onto: inside the grid, and not an obstacle
unless it is the goal itself. -/
def Passable (goal : Cell) (obstacles : List Cell) (c : Cell) : Prop :=
  insideGrid c = true ∧ (c ∉ obstacles ∨ c = goal)

instance (goal : Cell) (obstacles : List Cell) (c : Cell) :
    Decidable (Passable goal obstacles c) :=
  inferInstanceAs (Decidable (_ ∧ _))

/-- A valid BFS path from `start` to `c`: nonempty, starts at `start`, ends
at `c`, consecutive cells are 4-connected, and every cell after the first is
passable (the start cell itself is never checked by the source: it is pushed
unconditionally). -/
def PathTo (start goal : Cell) (obstacles : List Cell) (c : Cell) (p : List Cell) : Prop :=
  p.head? = some start ∧ p.getLast? = some c ∧ p.Chain' Adj ∧
    ∀ x ∈ p.tail, Passable goal obstacles x

/-- Executable chain check for `Adj`, used for the decidability of `PathTo`. -/
def chainB : List Cell → Bool
  | [] => true
  | [_] => true
  | a :: b :: t => decide (Adj a b) && chainB (b :: t)

/-- The boolean chain check agrees with `List.Chain'`. -/
theorem chainB_iff : ∀ p : List Cell, chainB p = true ↔ p.Chain' Adj
  | [] => by simp [chainB]
  | [a] => by simp [chainB]
  | a :: b :: t => by
    rw [List.chain'_cons]
    simp only [chainB, Bool.and_eq_true, decide_eq_true_eq]
    rw [chainB_iff (b :: t)]

instance (start goal : Cell) (obstacles : List Cell) (c : Cell) (p : List Cell) :
    Decidable (PathTo start goal obstacles c p) :=
  decidable_of_iff (p.head? = some start ∧ p.getLast? = some c ∧ chainB p = true ∧
      ∀ x ∈ p.tail, Passable goal obstacles x)
    (by
      unfold PathTo
      constructor
      · rintro ⟨h1, h2, h3, h4⟩
        exact ⟨h1, h2, (chainB_iff p).mp h3, h4⟩
      · rintro ⟨h1, h2, h3, h4⟩
        exact ⟨h1, h2, (chainB_iff p).mpr h3, h4⟩)

/-! ## Generic helper lemmas -/

/-- A property preserved by every fold step is preserved by the fold. -/
theorem foldl_preserve {α σ : Type _} (f : σ → α → σ) (P : σ → Prop)
    (hP : ∀ st a, P st → P (f st a)) : ∀ (l : List α) (st : σ), P st → P (l.foldl f st)
  | [], _, h => h
  | _ :: l, st, h => foldl_preserve f P hP l _ (hP st _ h)

/-- Dropping the last two elements of a list whose head is `c` leaves a list
whose head is still `c`, or the empty list. -/
theorem head_dropLast_dropLast {c : Cell} : ∀ {l : List Cell}, l.head? = some c →
    (l.dropLast.dropLast.head? = some c ∨ l.dropLast.dropLast = [])
  | [], h => by simp at h
  | [_], h => by simp
  | [_, _], h => by simp
  | a :: b :: d :: l, h => by
    simp only [List.head?_cons, Option.some.injEq] at h
    subst h
    left
    simp [List.dropLast]

/-! ## C4 and C5: the step engine -/

/-- Scenario A snake: `[(5,5),(4,5),(3,5)]`, alive, no pending growth. -/
def scenarioASnake : Snake := makeSnake [⟨5, 5⟩, ⟨4, 5⟩, ⟨3, 5⟩]

/-- C4: for every live snake whose computed new head stays inside the grid,
one step prepends the new head; if `pendingGrowth > 0` before the step it is
decremented and the tail kept (length +1), else the tail is dropped (length
unchanged); in particular the Scenario A snake facing right steps to
`[(6,5),(5,5),(4,5)]`. -/
theorem stepSnake_advance (sn : Snake) (dir : Direction) (h : Cell) (t : List Cell)
    (halive : sn.alive = true) (hbody : sn.body = h :: t)
    (hin : insideGrid (moveHead h dir) = true) :
    ((stepSnake sn dir).1.body =
        moveHead h dir :: (if 0 < sn.pendingGrow then sn.body else sn.body.dropLast)) ∧
    ((stepSnake sn dir).1.body.length =
        if 0 < sn.pendingGrow then sn.body.length + 1 else sn.body.length) ∧
    ((stepSnake sn dir).1.pendingGrow =
        if 0 < sn.pendingGrow then sn.pendingGrow - 1 else sn.pendingGrow) ∧
    (stepSnake sn dir).1.alive = true ∧ (stepSnake sn dir).2 = false ∧
    ((stepSnake scenarioASnake Direction.right).1.body = [⟨6, 5⟩, ⟨5, 5⟩, ⟨4, 5⟩] ∧
      (stepSnake scenarioASnake Direction.right).1.body.length = 3 ∧
      (stepSnake scenarioASnake Direction.right).1.pendingGrow = 0) := by
  have hscen : (stepSnake scenarioASnake Direction.right).1.body = [⟨6, 5⟩, ⟨5, 5⟩, ⟨4, 5⟩] ∧
      (stepSnake scenarioASnake Direction.right).1.body.length = 3 ∧
      (stepSnake scenarioASnake Direction.right).1.pendingGrow = 0 := by decide
  refine ⟨?_, ?_, ?_, ?_, ?_, hscen⟩ <;> by_cases hg : 0 < sn.pendingGrow <;>
    simp [stepSnake, hbody, halive, hin, hg, List.length_dropLast]

/-- C4 witness: the general theorem instantiated on the Scenario A snake. -/
theorem stepSnake_advance_witness :
    (stepSnake scenarioASnake Direction.right).1.body = [⟨6, 5⟩, ⟨5, 5⟩, ⟨4, 5⟩] ∧
    (stepSnake scenarioASnake Direction.right).1.body.length = 3 ∧
    (stepSnake scenarioASnake Direction.right).1.alive = true := by
  have T := stepSnake_advance scenarioASnake Direction.right ⟨5, 5⟩ [⟨4, 5⟩, ⟨3, 5⟩]
    rfl rfl (by decide)
  exact ⟨T.2.2.2.2.2.1, T.2.2.2.2.2.2.1, T.2.2.2.1⟩

/-- C5: a step whose computed new head leaves the grid kills the snake with
cause `wall` and mutates nothing else: the body and growth counter are
untouched, only that snake is affected, and a live snake's head stays inside
the grid. -/
theorem stepSnake_wall_bounds :
    (∀ (sn : Snake) (dir : Direction) (h : Cell) (t : List Cell),
        sn.alive = true → sn.body = h :: t → insideGrid (moveHead h dir) = false →
        ((stepSnake sn dir).1.alive = false ∧ (stepSnake sn dir).1.body = sn.body ∧
          (stepSnake sn dir).1.pendingGrow = sn.pendingGrow ∧ (stepSnake sn dir).2 = true)) ∧
    (∀ (sn : Snake) (dir : Direction) (h : Cell) (t : List Cell),
        sn.body = h :: t → insideGrid h = true → (stepSnake sn dir).1.alive = true →
        ∃ h2 t2, (stepSnake sn dir).1.body = h2 :: t2 ∧ insideGrid h2 = true) ∧
    (∀ (s : GameState) (dir : Direction) (h : Cell) (t : List Cell),
        s.playerSnake.alive = true → s.playerSnake.body = h :: t →
        insideGrid (moveHead h dir) = false →
        ((stepSnakeInState s Eater.player dir).events =
            s.events ++ [⟨Who.player, Cause.wall⟩] ∧
          (stepSnakeInState s Eater.player dir).aiSnake = s.aiSnake ∧
          (stepSnakeInState s Eater.player dir).playerSnake.alive = false ∧
          (stepSnakeInState s Eater.player dir).playerSnake.body = s.playerSnake.body ∧
          (stepSnakeInState s Eater.player dir).foods = s.foods ∧
          (stepSnakeInState s Eater.player dir).score = s.score)) := by
  refine ⟨?_, ?_, ?_⟩
  · intro sn dir h t halive hbody hout
    simp [stepSnake, hbody, halive, hout]
  · intro sn dir h t hbody hin halive2
    by_cases halive : sn.alive
    · by_cases hout : insideGrid (moveHead h dir)
      · by_cases hg : 0 < sn.pendingGrow
        · exact ⟨moveHead h dir, sn.body, by simp [stepSnake, hbody, halive, hout, hg], hout⟩
        · exact ⟨moveHead h dir, sn.body.dropLast,
            by simp [stepSnake, hbody, halive, hout, hg], hout⟩
      · exfalso
        simp [stepSnake, hbody, halive, hout] at halive2
    · exact ⟨h, t, by simp [stepSnake, halive, hbody], hin⟩
  · intro s dir h t halive hbody hout
    have hwall : stepSnake s.playerSnake dir =
        ({ s.playerSnake with alive := false }, true) := by
      simp [stepSnake, hbody, halive, hout]
    simp [stepSnakeInState, hwall, hbody]

/-- C5 witness: a snake at the left wall facing left dies with cause `wall`
and its body is untouched. -/
theorem stepSnake_wall_bounds_witness :
    (stepSnake (makeSnake [⟨0, 5⟩, ⟨1, 5⟩]) Direction.left).1.alive = false ∧
    (stepSnake (makeSnake [⟨0, 5⟩, ⟨1, 5⟩]) Direction.left).1.body = [⟨0, 5⟩, ⟨1, 5⟩] ∧
    insideGrid (⟨0, 5⟩ : Cell) = true := by
  have T := stepSnake_wall_bounds.1 (makeSnake [⟨0, 5⟩, ⟨1, 5⟩]) Direction.left
    ⟨0, 5⟩ [⟨1, 5⟩] rfl rfl (by decide)
  exact ⟨T.1, by rw [T.2.1]; decide, by decide⟩

/-! ## C3: the poison effect -/

/-- C3: consuming a poison food sets the player score to
`max(0, score − 2)`, truncates at most two trailing segments of the eater
(fewer when the body is shorter, never below the empty body), and a
2-segment body ends with at most one segment. -/
theorem consumeFood_poison (s : GameState) (eater : Eater) (f : Food) (cellO : Nat → Cell)
    (hty : f.type = FoodType.special) (hsub : f.subtype = some SpecialSubtype.poison) :
    (eater = Eater.player →
        (consumeFood s eater f cellO).score = max 0 (s.score - 2)) ∧
    eaterBody (consumeFood s eater f cellO) eater = (eaterBody s eater).dropLast.dropLast ∧
    (eaterBody (consumeFood s eater f cellO) eater).length = (eaterBody s eater).length - 2 ∧
    eaterBody (consumeFood s eater f cellO) eater =
      (eaterBody s eater).take ((eaterBody s eater).length - 2) ∧
    ((eaterBody s eater).length = 2 →
        (eaterBody (consumeFood s eater f cellO) eater).length ≤ 1) := by
  have htake : ∀ l : List Cell, l.dropLast.dropLast = l.take (l.length - 2) := by
    intro l
    rw [List.dropLast_eq_take, List.dropLast_eq_take, List.take_take, List.length_take]
    congr 1
    omega
  have hne : ¬f.type = FoodType.normal := by rw [hty]; intro hcon; cases hcon
  cases eater with
  | player =>
    refine ⟨fun _ => ?_, ?_, ?_, ?_, ?_⟩ <;>
      simp [consumeFood, hne, hsub, modifySnake, eaterBody, htake, List.length_dropLast]
    all_goals omega
  | ai =>
    cases hai : s.aiSnake with
    | none =>
      refine ⟨fun hcon => absurd hcon (by decide), ?_, ?_, ?_, ?_⟩ <;>
        simp [consumeFood, hne, hsub, modifySnake, eaterBody, hai]
    | some a =>
      refine ⟨fun hcon => absurd hcon (by decide), ?_, ?_, ?_, ?_⟩ <;>
        simp [consumeFood, hne, hsub, modifySnake, eaterBody, hai, htake,
          List.length_dropLast]
      all_goals omega

/-- C3 witness: a 2-segment player snake eating poison ends with 0 segments
and the score clamps at 0. -/
theorem consumeFood_poison_witness :
    (consumeFood
        { mode := Mode.single, score := 1, tickInterval := 150, speedBoost := 0,
          invisibleTailTicks := 0, gameTime := 0, playerDir := Direction.right,
          playerSnake := makeSnake [⟨3, 3⟩, ⟨2, 3⟩], aiSnake := none, foods := [],
          eatenLog := [], events := [] }
        Eater.player
        { x := 3, y := 3, type := FoodType.special, subtype := some SpecialSubtype.poison }
        (fun _ => ⟨0, 0⟩)).score = 0 ∧
    (eaterBody
        (consumeFood
          { mode := Mode.single, score := 1, tickInterval := 150, speedBoost := 0,
            invisibleTailTicks := 0, gameTime := 0, playerDir := Direction.right,
            playerSnake := makeSnake [⟨3, 3⟩, ⟨2, 3⟩], aiSnake := none, foods := [],
            eatenLog := [], events := [] }
          Eater.player
          { x := 3, y := 3, type := FoodType.special, subtype := some SpecialSubtype.poison }
          (fun _ => ⟨0, 0⟩))
        Eater.player).length ≤ 1 := by
  have T := consumeFood_poison
    { mode := Mode.single, score := 1, tickInterval := 150, speedBoost := 0,
      invisibleTailTicks := 0, gameTime := 0, playerDir := Direction.right,
      playerSnake := makeSnake [⟨3, 3⟩, ⟨2, 3⟩], aiSnake := none, foods := [],
      eatenLog := [], events := [] }
    Eater.player
    { x := 3, y := 3, type := FoodType.special, subtype := some SpecialSubtype.poison }
    (fun _ => ⟨0, 0⟩) rfl rfl
  exact ⟨by rw [T.1 rfl]; decide, T.2.2.2.2 (by decide)⟩

/-! ## C9 and C6: the food spawner and normal-food consumption -/

/-- If every attempt in the window collides, the placement loop fails and
leaves the state untouched. -/
theorem placeFoodLoop_none (s : GameState) (ty : FoodType) (cellO : Nat → Cell)
    (subO : SpecialSubtype) : ∀ (r a : Nat),
    (∀ i, a ≤ i → i < a + r → collisionAt s (cellO i) = true) →
    placeFoodLoop s ty cellO subO r a = (none, s)
  | 0, _, _ => rfl
  | r + 1, a, h => by
    have hc : collisionAt s (cellO a) = true := h a (Nat.le_refl a) (by omega)
    simp only [placeFoodLoop, hc, if_true]
    exact placeFoodLoop_none s ty cellO subO r (a + 1) (fun i h1 h2 => h i (by omega) (by omega))

/-- If attempt `i` is the first free one in the window, the placement loop
pushes the food built at `cellO i` and returns it. -/
theorem placeFoodLoop_found (s : GameState) (ty : FoodType) (cellO : Nat → Cell)
    (subO : SpecialSubtype) : ∀ (r a i : Nat), a ≤ i → i < a + r →
    collisionAt s (cellO i) = false →
    (∀ j, a ≤ j → j < i → collisionAt s (cellO j) = true) →
    placeFoodLoop s ty cellO subO r a =
      (some (mkPlacedFood ty subO (cellO i)),
        { s with foods := s.foods ++ [mkPlacedFood ty subO (cellO i)] })
  | 0, a, i, h1, h2, _, _ => by omega
  | r + 1, a, i, h1, h2, hfree, hmin => by
    rcases Nat.eq_or_lt_of_le h1 with heq | hlt
    · subst heq
      simp only [placeFoodLoop, hfree, Bool.false_eq_true, if_false]
    · have hc : collisionAt s (cellO a) = true := hmin a (Nat.le_refl a) hlt
      simp only [placeFoodLoop, hc, if_true]
      exact placeFoodLoop_found s ty cellO subO r (a + 1) i hlt (by omega) hfree
        (fun j hj1 hj2 => hmin j (by omega) hj2)

/-- Case analysis on a `placeFood` call: it either fails as a strict no-op,
or appends exactly one food of the requested kind at a collision-free cell. -/
theorem placeFood_cases (s : GameState) (ty : FoodType) (cellO : Nat → Cell)
    (subO : SpecialSubtype) :
    placeFood s ty cellO subO = (none, s) ∨
    ∃ fd, placeFood s ty cellO subO = (some fd, { s with foods := s.foods ++ [fd] }) ∧
      fd.type = ty ∧ collisionAt s ⟨fd.x, fd.y⟩ = false := by
  by_cases hex : ∃ i, i < 200 ∧ collisionAt s (cellO i) = false
  · right
    classical
    have hspec := Nat.find_spec hex
    set i0 := Nat.find hex with hi0
    refine ⟨mkPlacedFood ty subO (cellO i0), ?_, rfl, ?_⟩
    · exact placeFoodLoop_found s ty cellO subO 200 0 i0 (Nat.zero_le _) (by omega)
        hspec.2 (fun j _ hj => by
          have := Nat.find_min hex hj
          have hj200 : j < 200 := by omega
          simpa [hj200] using this)
    · have : (⟨(cellO i0).x, (cellO i0).y⟩ : Cell) = cellO i0 := rfl
      simpa [mkPlacedFood, this] using hspec.2
  · left
    push_neg at hex
    exact placeFoodLoop_none s ty cellO subO 200 0 (fun i _ h2 => by
      have := hex i (by omega)
      simpa using this)

/-- A successful `placeFood` call, characterised first-fit: the returned food
sits at the first collision-free oracle cell. -/
theorem placeFood_success (s : GameState) (ty : FoodType) (cellO : Nat → Cell)
    (subO : SpecialSubtype) (hex : ∃ i, i < 200 ∧ collisionAt s (cellO i) = false) :
    ∃ i, i < 200 ∧ collisionAt s (cellO i) = false ∧
      (∀ j, j < i → collisionAt s (cellO j) = true) ∧
      placeFood s ty cellO subO =
        (some (mkPlacedFood ty subO (cellO i)),
          { s with foods := s.foods ++ [mkPlacedFood ty subO (cellO i)] }) := by
  classical
  have hspec := Nat.find_spec hex
  refine ⟨Nat.find hex, hspec.1, hspec.2, fun j hj => ?_, ?_⟩
  · have := Nat.find_min hex hj
    have hj200 : j < 200 := by omega
    simpa [hj200] using this
  · exact placeFoodLoop_found s ty cellO subO 200 0 _ (Nat.zero_le _) (by omega)
      hspec.2 (fun j _ hj => by
        have := Nat.find_min hex hj
        have hj200 : j < 200 := by omega
        simpa [hj200] using this)

/-- `placeFood` changes the `foods` list at most and nothing else. -/
theorem placeFood_fields (s : GameState) (ty : FoodType) (cellO : Nat → Cell)
    (subO : SpecialSubtype) :
    (placeFood s ty cellO subO).2.playerSnake = s.playerSnake ∧
    (placeFood s ty cellO subO).2.aiSnake = s.aiSnake ∧
    (placeFood s ty cellO subO).2.score = s.score ∧
    (placeFood s ty cellO subO).2.speedBoost = s.speedBoost ∧
    (placeFood s ty cellO subO).2.eatenLog = s.eatenLog ∧
    (placeFood s ty cellO subO).2.events = s.events ∧
    (placeFood s ty cellO subO).2.tickInterval = s.tickInterval ∧
    (placeFood s ty cellO subO).2.invisibleTailTicks = s.invisibleTailTicks ∧
    (placeFood s ty cellO subO).2.mode = s.mode ∧
    (placeFood s ty cellO subO).2.gameTime = s.gameTime ∧
    (placeFood s ty cellO subO).2.playerDir = s.playerDir := by
  rcases placeFood_cases s ty cellO subO with h | ⟨fd, h, _, _⟩ <;> rw [h]
  all_goals simp

/-- C9: `placeFood` samples oracle cells rejecting those occupied by a snake
body segment; it returns a food placed on the first free cell, or `none`
after 200 failed attempts, in which case the whole state (in particular the
food set) is untouched and no exception escapes (the embedding is a total
function). -/
theorem placeFood_spec (s : GameState) (ty : FoodType) (cellO : Nat → Cell)
    (subO : SpecialSubtype) :
    ((∀ i, i < 200 → collisionAt s (cellO i) = true) →
      placeFood s ty cellO subO = (none, s)) ∧
    ((∃ i, i < 200 ∧ collisionAt s (cellO i) = false) →
      ∃ i, i < 200 ∧ collisionAt s (cellO i) = false ∧
        (∀ j, j < i → collisionAt s (cellO j) = true) ∧
        (placeFood s ty cellO subO).1 = some (mkPlacedFood ty subO (cellO i)) ∧
        (placeFood s ty cellO subO).2 =
          { s with foods := s.foods ++ [mkPlacedFood ty subO (cellO i)] }) := by
  constructor
  · intro hall
    exact placeFoodLoop_none s ty cellO subO 200 0 (fun i _ h2 => hall i (by omega))
  · intro hex
    obtain ⟨i, h1, h2, h3, h4⟩ := placeFood_success s ty cellO subO hex
    exact ⟨i, h1, h2, h3, by rw [h4], by rw [h4]⟩

/-- C9 witness: with an all-occupied oracle the spawner is a no-op, and with
a free cell at attempt 0 it succeeds at once. -/
theorem placeFood_spec_witness :
    placeFood (initGame Mode.single none fun _ => ⟨0, 0⟩) FoodType.normal
        (fun _ => ⟨13, 15⟩) SpecialSubtype.bonus =
      (none, initGame Mode.single none fun _ => ⟨0, 0⟩) ∧
    ∃ i, i < 200 ∧
      collisionAt (initGame Mode.single none fun _ => ⟨0, 0⟩) ((fun _ => (⟨1, 1⟩ : Cell)) i) = false ∧
      (∀ j, j < i →
        collisionAt (initGame Mode.single none fun _ => ⟨0, 0⟩) ((fun _ => (⟨1, 1⟩ : Cell)) j) = true) ∧
      (placeFood (initGame Mode.single none fun _ => ⟨0, 0⟩) FoodType.normal
          (fun _ => ⟨1, 1⟩) SpecialSubtype.bonus).1 =
        some (mkPlacedFood FoodType.normal SpecialSubtype.bonus ⟨1, 1⟩) ∧
      (placeFood (initGame Mode.single none fun _ => ⟨0, 0⟩) FoodType.normal
          (fun _ => ⟨1, 1⟩) SpecialSubtype.bonus).2 =
        { (initGame Mode.single none fun _ => ⟨0, 0⟩) with
          foods := (initGame Mode.single none fun _ => ⟨0, 0⟩).foods ++
            [mkPlacedFood FoodType.normal SpecialSubtype.bonus ⟨1, 1⟩] } := by
  constructor
  · exact (placeFood_spec (initGame Mode.single none fun _ => ⟨0, 0⟩) FoodType.normal
      (fun _ => ⟨13, 15⟩) SpecialSubtype.bonus).1 (fun i _ => by decide)
  · exact (placeFood_spec (initGame Mode.single none fun _ => ⟨0, 0⟩) FoodType.normal
      (fun _ => ⟨1, 1⟩) SpecialSubtype.bonus).2 ⟨0, by decide, by decide⟩

/-- The state of `consumeFood` on a normal food just before its `placeFood`
call: growth, score, speed multiplier and speed boost already applied. -/
def postNormal (s : GameState) (eater : Eater) (f : Food) : GameState :=
  let s0 := { s with eatenLog := s.eatenLog ++ [(eater, f)] }
  let s1 := modifySnake s0 eater (fun sn => { sn with pendingGrow := sn.pendingGrow + 1 })
  let s2 := if eater = Eater.player then { s1 with score := s1.score + SCORE_PER_FOOD } else s1
  let s3 := modifySnake s2 eater
    (fun sn => { sn with speedMultiplier := sn.speedMultiplier * (103 / 100 : ℚ) })
  { s3 with speedBoost := max 0 (s3.speedBoost - 2) }

/-- On a normal food, `consumeFood` is `postNormal` followed by the
replacement spawn. -/
theorem consumeFood_normal_eq (s : GameState) (eater : Eater) (f : Food)
    (cellO : Nat → Cell) (hty : f.type = FoodType.normal) :
    consumeFood s eater f cellO =
      (placeFood (postNormal s eater f) FoodType.normal cellO SpecialSubtype.bonus).2 := by
  simp [consumeFood, hty, postNormal]

/-- Two states with the same snake bodies agree on `collisionAt`. -/
theorem collisionAt_congr (s t : GameState)
    (hp : t.playerSnake.body = s.playerSnake.body)
    (ha : t.aiSnake.map (fun a => a.body) = s.aiSnake.map (fun a => a.body)) :
    ∀ pos, collisionAt t pos = collisionAt s pos := by
  intro pos
  have hmap : ∀ (o : Option Snake),
      o.map (fun a => a.body.any (fun c => c == pos)) =
        (o.map (fun a => a.body)).map (fun b => b.any (fun c => c == pos)) := by
    intro o
    cases o <;> rfl
  unfold collisionAt
  rw [hp, hmap, hmap, ha]

/-- `postNormal` keeps the snake bodies and the food list. -/
theorem postNormal_bodies (s : GameState) (eater : Eater) (f : Food) :
    (postNormal s eater f).playerSnake.body = s.playerSnake.body ∧
    (postNormal s eater f).aiSnake.map (fun a => a.body) =
      s.aiSnake.map (fun a => a.body) ∧
    (postNormal s eater f).foods = s.foods := by
  cases eater <;> cases hai : s.aiSnake <;>
    simp [postNormal, modifySnake, hai]

/-- C6: consuming a normal food increments the eater's pending growth,
raises the player score by exactly 1 when the player eats, multiplies the
eater's speed factor by 1.03, clamps `speedBoost` to
`max(0, speedBoost − 2)`, and (placement succeeding) appends exactly one
replacement normal food in the same tick. -/
theorem consumeFood_normal (s : GameState) (eater : Eater) (f : Food) (cellO : Nat → Cell)
    (hty : f.type = FoodType.normal)
    (hai : eater = Eater.ai → s.aiSnake ≠ none)
    (hfree : ∃ i, i < 200 ∧ collisionAt s (cellO i) = false) :
    eaterPendingGrow (consumeFood s eater f cellO) eater = eaterPendingGrow s eater + 1 ∧
    (eater = Eater.player → (consumeFood s eater f cellO).score = s.score + 1) ∧
    eaterSpeedMultiplier (consumeFood s eater f cellO) eater =
      eaterSpeedMultiplier s eater * (103 / 100) ∧
    (consumeFood s eater f cellO).speedBoost = max 0 (s.speedBoost - 2) ∧
    ∃ nf, (consumeFood s eater f cellO).foods = s.foods ++ [nf] ∧
      nf.type = FoodType.normal := by
  obtain ⟨hpb, hab, hfd⟩ := postNormal_bodies s eater f
  have hcong := collisionAt_congr s (postNormal s eater f) hpb hab
  have hfree2 : ∃ i, i < 200 ∧ collisionAt (postNormal s eater f) (cellO i) = false := by
    obtain ⟨i, h1, h2⟩ := hfree
    exact ⟨i, h1, by rw [hcong]; exact h2⟩
  obtain ⟨i, _, _, _, hplace⟩ :=
    placeFood_success (postNormal s eater f) FoodType.normal cellO SpecialSubtype.bonus hfree2
  rw [consumeFood_normal_eq s eater f cellO hty, hplace]
  have hfoods : ({ postNormal s eater f with
      foods := (postNormal s eater f).foods ++
        [mkPlacedFood FoodType.normal SpecialSubtype.bonus (cellO i)] } : GameState).foods =
      s.foods ++ [mkPlacedFood FoodType.normal SpecialSubtype.bonus (cellO i)] := by
    rw [show ({ postNormal s eater f with
      foods := (postNormal s eater f).foods ++
        [mkPlacedFood FoodType.normal SpecialSubtype.bonus (cellO i)] } : GameState).foods =
        (postNormal s eater f).foods ++
          [mkPlacedFood FoodType.normal SpecialSubtype.bonus (cellO i)] from rfl, hfd]
  refine ⟨?_, ?_, ?_, ?_, ⟨mkPlacedFood FoodType.normal SpecialSubtype.bonus (cellO i),
    hfoods, rfl⟩⟩
  · cases eater with
    | player => simp [postNormal, modifySnake, eaterPendingGrow]
    | ai =>
      cases hais : s.aiSnake with
      | none => exact absurd hais (hai rfl)
      | some a => simp [postNormal, modifySnake, eaterPendingGrow, hais]
  · intro hp
    subst hp
    simp [postNormal, modifySnake, SCORE_PER_FOOD]
  · cases eater with
    | player => simp [postNormal, modifySnake, eaterSpeedMultiplier]
    | ai =>
      cases hais : s.aiSnake with
      | none => exact absurd hais (hai rfl)
      | some a => simp [postNormal, modifySnake, eaterSpeedMultiplier, hais]
  · cases eater <;> cases hais : s.aiSnake <;>
      simp [postNormal, modifySnake, hais]

/-- C6 witness: the player eating a normal food on an open board. -/
theorem consumeFood_normal_witness :
    eaterPendingGrow
        (consumeFood (initGame Mode.single none fun _ => ⟨0, 0⟩) Eater.player
          { x := 13, y := 15, type := FoodType.normal, subtype := none } fun _ => ⟨2, 2⟩)
        Eater.player = 1 ∧
    (consumeFood (initGame Mode.single none fun _ => ⟨0, 0⟩) Eater.player
        { x := 13, y := 15, type := FoodType.normal, subtype := none } fun _ => ⟨2, 2⟩).score =
      1 ∧
    (consumeFood (initGame Mode.single none fun _ => ⟨0, 0⟩) Eater.player
        { x := 13, y := 15, type := FoodType.normal, subtype := none } fun _ => ⟨2, 2⟩).speedBoost =
      0 := by
  have T := consumeFood_normal (initGame Mode.single none fun _ => ⟨0, 0⟩) Eater.player
    { x := 13, y := 15, type := FoodType.normal, subtype := none } (fun _ => ⟨2, 2⟩)
    rfl (fun h => by cases h) ⟨0, by decide, by decide⟩
  refine ⟨?_, ?_, ?_⟩
  · rw [T.1]; decide
  · rw [T.2.1 rfl]; decide
  · rw [T.2.2.2.1]; decide

/-! ## C1: the self-collision check of the collision resolver -/

/-- A single-player state whose player snake has the Scenario C body
`[(10,10),(10,11),(10,9)]` (head first). -/
def scenarioCState : GameState :=
  { mode := Mode.single, score := 0, tickInterval := BASE_TICK, speedBoost := 0,
    invisibleTailTicks := 0, gameTime := 0, playerDir := Direction.right,
    playerSnake := makeSnake [⟨10, 10⟩, ⟨10, 11⟩, ⟨10, 9⟩],
    aiSnake := none, foods := [], eatenLog := [], events := [] }

/-- The Scenario C state with the third segment changed to `(10,10)`, so the
head genuinely revisits a non-head segment. -/
def scenarioCFixedState : GameState :=
  { mode := Mode.single, score := 0, tickInterval := BASE_TICK, speedBoost := 0,
    invisibleTailTicks := 0, gameTime := 0, playerDir := Direction.right,
    playerSnake := makeSnake [⟨10, 10⟩, ⟨10, 11⟩, ⟨10, 10⟩],
    aiSnake := none, foods := [], eatenLog := [], events := [] }

/-- C1 counterexample: on the body `[(10,10),(10,11),(10,9)]` the claim
fails — the head `(10,10)` equals no non-head segment, so the collision
resolver leaves the snake alive and emits no death event. -/
theorem selfCollision_scenarioC_not_detected :
    (handleCollisionsSingleMode scenarioCState).playerSnake.alive = true ∧
    (handleCollisionsSingleMode scenarioCState).events = [] := by decide

/-- `killPlayer` leaves a dead player dead, and the self-check fold only
kills, so a dead player stays dead through it. -/
theorem playerSelfFold_dead (h : Cell) :
    ∀ (l : List Cell) (st : GameState), st.playerSnake.alive = false →
    (l.foldl (fun st seg => if seg = h then killPlayer st Cause.self else st)
      st).playerSnake.alive = false := by
  intro l st hdead
  refine foldl_preserve _ (fun st => st.playerSnake.alive = false) ?_ l st hdead
  intro st seg hd
  by_cases hs : seg = h <;> simp [hs, killPlayer, hd]

/-- If the head occurs among the non-head segments, the player self-check
kills the player. -/
theorem playerSelfCheck_kills (s : GameState) (h : Cell) (t : List Cell)
    (halive : s.playerSnake.alive = true) (hbody : s.playerSnake.body = h :: t)
    (hmem : h ∈ t) : (playerSelfCheck s).playerSnake.alive = false := by
  unfold playerSelfCheck
  rw [halive, hbody]
  simp only [if_true]
  clear hbody
  induction t generalizing s with
  | nil => cases hmem
  | cons seg rest ih =>
    rcases List.mem_cons.mp hmem with heq | hmem2
    · subst heq
      simp only [List.foldl_cons, if_pos rfl]
      exact playerSelfFold_dead h rest _ (by simp [killPlayer])
    · by_cases hs : seg = h
      · simp only [List.foldl_cons, if_pos hs]
        exact playerSelfFold_dead h rest _ (by simp [killPlayer])
      · simp only [List.foldl_cons, if_neg hs]
        exact ih s halive hmem2

/-- `killAi` does not touch the player snake. -/
theorem killAi_player (st : GameState) (c : Cause) :
    (killAi st c).playerSnake = st.playerSnake := rfl

/-- The AI section of the collision resolver never revives the player. -/
theorem aiSection_player_dead (s : GameState) (headA : Cell) (tailA aiBody : List Cell)
    (hdead : s.playerSnake.alive = false) :
    (aiSection s headA tailA aiBody).playerSnake.alive = false := by
  unfold aiSection
  have h2 : (tailA.foldl (fun st seg => if seg = headA then killAi st Cause.self else st)
      s).playerSnake.alive = false := by
    refine foldl_preserve _ (fun st => st.playerSnake.alive = false) ?_ tailA s hdead
    intro st seg hd
    by_cases hs : seg = headA <;> simp [hs, killAi, hd]
  simp only [h2, Bool.false_and, Bool.false_eq_true, if_false]
  set s2 := tailA.foldl (fun st seg => if seg = headA then killAi st Cause.self else st) s
  have h4 : ∀ st : GameState, st.playerSnake.alive = false →
      ((if (st.aiSnake.map (fun a => a.alive)).getD false then
        st.playerSnake.body.foldl
          (fun st seg => if seg = headA then killAi st Cause.intoBody else st) st
      else st) : GameState).playerSnake.alive = false := by
    intro st hd
    by_cases hb : (st.aiSnake.map (fun a => a.alive)).getD false
    · simp only [hb, if_true]
      refine foldl_preserve _ (fun u => u.playerSnake.alive = false) ?_ _ st hd
      intro u seg hu
      by_cases hs : seg = headA <;> simp [hs, killAi, hu]
    · simp only [hb, if_false]
      exact hd
  exact h4 s2 h2

/-- C1 (amended): on the body `[(10,10),(10,11),(10,10)]`, where the head
does equal a non-head segment, the collision resolver kills the player with
cause `self`; in general a live player whose head equals any of its own
non-head segments is marked dead by the resolver. -/
theorem selfCollision_uturn :
    ((handleCollisionsSingleMode scenarioCFixedState).playerSnake.alive = false ∧
      (handleCollisionsSingleMode scenarioCFixedState).events =
        [⟨Who.player, Cause.self⟩]) ∧
    (∀ (s : GameState) (h : Cell) (t : List Cell), s.playerSnake.alive = true →
      s.playerSnake.body = h :: t → h ∈ t →
      (handleCollisionsSingleMode s).playerSnake.alive = false) := by
  constructor
  · constructor <;> decide
  · intro s h t halive hbody hmem
    have hkilled := playerSelfCheck_kills s h t halive hbody hmem
    unfold handleCollisionsSingleMode
    dsimp only
    generalize hg : playerSelfCheck s = s1 at hkilled ⊢
    cases hai : s1.aiSnake with
    | none => exact hkilled
    | some a0 =>
      by_cases haa : a0.alive
      · cases hab : a0.body with
        | nil => simp [haa, hab, hkilled]
        | cons headA tailA =>
          simp only [haa, if_true, hab]
          exact aiSection_player_dead s1 headA tailA (headA :: tailA) hkilled
      · simp [haa, hkilled]

/-- C1 (amended) witness: the general rule applied to the fixed scenario. -/
theorem selfCollision_uturn_witness :
    (handleCollisionsSingleMode scenarioCFixedState).playerSnake.alive = false :=
  selfCollision_uturn.2 scenarioCFixedState ⟨10, 10⟩ [⟨10, 11⟩, ⟨10, 10⟩] rfl rfl
    (by decide)

/-! ## C7: the first-consumer tie-break of the effect resolver -/

/-- `consumeFood` records exactly one ghost log entry, for its eater. -/
theorem consumeFood_log (s : GameState) (e : Eater) (f : Food) (cellO : Nat → Cell) :
    (consumeFood s e f cellO).eatenLog = s.eatenLog ++ [(e, f)] := by
  by_cases hty : f.type = FoodType.normal
  · rw [consumeFood_normal_eq s e f cellO hty]
    rw [(placeFood_fields (postNormal s e f) FoodType.normal cellO
      SpecialSubtype.bonus).2.2.2.2.1]
    cases e <;> cases hai : s.aiSnake <;> simp [postNormal, modifySnake, hai]
  · unfold consumeFood
    rw [if_neg hty]
    cases hsub : f.subtype with
    | none => rfl
    | some st =>
      cases st <;> cases e <;> cases hai : s.aiSnake <;>
        simp [modifySnake, hai]

/-- A player consumption never touches the AI snake. -/
theorem consumeFood_player_ai (s : GameState) (f : Food) (cellO : Nat → Cell) :
    (consumeFood s Eater.player f cellO).aiSnake = s.aiSnake := by
  by_cases hty : f.type = FoodType.normal
  · rw [consumeFood_normal_eq s Eater.player f cellO hty]
    rw [(placeFood_fields (postNormal s Eater.player f) FoodType.normal cellO
      SpecialSubtype.bonus).2.1]
    simp [postNormal, modifySnake]
  · unfold consumeFood
    rw [if_neg hty]
    cases hsub : f.subtype with
    | none => rfl
    | some st => cases st <;> simp [modifySnake]

/-- A player consumption leaves the player body unchanged, except that
poison drops the two trailing segments. -/
theorem consumeFood_player_body (s : GameState) (f : Food) (cellO : Nat → Cell) :
    (consumeFood s Eater.player f cellO).playerSnake.body = s.playerSnake.body ∨
    (consumeFood s Eater.player f cellO).playerSnake.body =
      s.playerSnake.body.dropLast.dropLast := by
  by_cases hty : f.type = FoodType.normal
  · left
    rw [consumeFood_normal_eq s Eater.player f cellO hty]
    rw [(placeFood_fields (postNormal s Eater.player f) FoodType.normal cellO
      SpecialSubtype.bonus).1]
    simp [postNormal, modifySnake]
  · unfold consumeFood
    rw [if_neg hty]
    cases hsub : f.subtype with
    | none => left; rfl
    | some st =>
      cases st with
      | poison => right; simp [modifySnake]
      | bonus => left; simp [modifySnake]
      | slow => left; rfl
      | invisible => left; by_cases h : (Eater.player = Eater.player) <;> simp

/-- The foods `consumeFood` adds: at most one replacement, always normal,
always on a collision-free cell of the pre-consumption state. -/
theorem consumeFood_foods (s : GameState) (e : Eater) (f : Food) (cellO : Nat → Cell) :
    ∃ sp, (consumeFood s e f cellO).foods = s.foods ++ sp ∧
      ∀ g ∈ sp, g.type = FoodType.normal ∧ collisionAt s ⟨g.x, g.y⟩ = false := by
  by_cases hty : f.type = FoodType.normal
  · rw [consumeFood_normal_eq s e f cellO hty]
    obtain ⟨hpb, hab, hfd⟩ := postNormal_bodies s e f
    have hcong := collisionAt_congr s (postNormal s e f) hpb hab
    rcases placeFood_cases (postNormal s e f) FoodType.normal cellO SpecialSubtype.bonus
      with h | ⟨fd, h, hii, hcc⟩
    · exact ⟨[], by rw [h, hfd, List.append_nil], by simp⟩
    · refine ⟨[fd], ?_, ?_⟩
      · rw [h]
        show (postNormal s e f).foods ++ [fd] = s.foods ++ [fd]
        rw [hfd]
      · intro g hg
        rw [List.mem_singleton] at hg
        subst hg
        exact ⟨hii, by rw [← hcong]; exact hcc⟩
  · refine ⟨[], ?_, by simp⟩
    rw [List.append_nil]
    unfold consumeFood
    rw [if_neg hty]
    cases hsub : f.subtype with
    | none => rfl
    | some st => cases st <;> cases e <;> cases hai : s.aiSnake <;> simp [modifySnake, hai]

/-- If no food of the scanned suffix sits on the common head cell `c`, the
food scan is an identity. -/
theorem hfcAux_no_c (cellO : Nat → Nat → Cell) (c : Cell) :
    ∀ (fs : List Food) (s : GameState),
    s.playerSnake.body.head? = some c →
    (∀ a, s.aiSnake = some a → a.body.head? = some c) →
    (∀ g ∈ fs, foodAtCell g c = false) →
    hfcAux cellO fs s = (fs, s)
  | [], s, _, _, _ => rfl
  | f0 :: rest, s, hp, hA, hfs => by
    have hr := hfcAux_no_c cellO c rest s hp hA (fun g hg => hfs g (List.mem_cons_of_mem _ hg))
    have hf0 : foodAtCell f0 c = false := hfs f0 (List.mem_cons_self f0 rest)
    unfold hfcAux
    rw [hr]
    dsimp only
    rw [hp]
    simp only [Option.map_some', Option.getD_some, hf0, Bool.false_eq_true, if_false]
    cases hai : s.aiSnake with
    | none => rfl
    | some a => simp [hA a hai, hf0]

/-- If exactly one scanned food sits on the common head cell `c`, the scan
removes exactly that food and hands it to the player branch of
`consumeFood` — the AI never gets it. -/
theorem hfcAux_single (cellO : Nat → Nat → Cell) (c : Cell) (f : Food) :
    ∀ (fs : List Food) (s : GameState),
    s.playerSnake.body.head? = some c →
    (∀ a, s.aiSnake = some a → a.body.head? = some c) →
    fs.filter (fun g => foodAtCell g c) = [f] →
    ∃ k, hfcAux cellO fs s =
      (fs.filter (fun g => !foodAtCell g c), consumeFood s Eater.player f (cellO k))
  | [], s, _, _, hone => by simp at hone
  | f0 :: rest, s, hp, hA, hone => by
    by_cases hf0 : foodAtCell f0 c
    · rw [List.filter_cons_of_pos (p := fun g => foodAtCell g c) hf0,
        List.cons_eq_cons] at hone
      obtain ⟨hf0f, hrest⟩ := hone
      subst hf0f
      have hnone : ∀ g ∈ rest, foodAtCell g c = false := by
        intro g hg
        by_contra hcon
        have hmem : g ∈ rest.filter (fun g => foodAtCell g c) :=
          List.mem_filter.mpr ⟨hg, by revert hcon; cases foodAtCell g c <;> simp⟩
        rw [hrest] at hmem
        cases hmem
      have hr := hfcAux_no_c cellO c rest s hp hA hnone
      have hkept : (f0 :: rest).filter (fun g => !foodAtCell g c) = rest := by
        rw [List.filter_cons_of_neg (p := fun g => !foodAtCell g c) (by simp [hf0])]
        exact List.filter_eq_self.mpr (fun g hg => by simp [hnone g hg])
      refine ⟨rest.length, ?_⟩
      unfold hfcAux
      rw [hr]
      dsimp only
      rw [hp]
      simp only [Option.map_some', Option.getD_some, hf0, if_true, hkept]
    · have hf0f : foodAtCell f0 c = false := by revert hf0; cases foodAtCell f0 c <;> simp
      rw [List.filter_cons_of_neg (p := fun g => foodAtCell g c) (by simp [hf0f])] at hone
      obtain ⟨k, hk⟩ := hfcAux_single cellO c f rest s hp hA hone
      have hCa := consumeFood_player_ai s f (cellO k)
      have hCp := consumeFood_player_body s f (cellO k)
      have hchk : ((consumeFood s Eater.player f (cellO k)).playerSnake.body.head?.map
          (foodAtCell f0)).getD false = false := by
        rcases hCp with hsame | hdrop
        · rw [hsame, hp]
          simp [hf0f]
        · rw [hdrop]
          rcases head_dropLast_dropLast (c := c) hp with hh | hh
          · rw [hh]; simp [hf0f]
          · rw [hh]; simp
      have hkept : (f0 :: rest).filter (fun g => !foodAtCell g c) =
          f0 :: rest.filter (fun g => !foodAtCell g c) := by
        rw [List.filter_cons_of_pos (p := fun g => !foodAtCell g c) (by simp [hf0f])]
      refine ⟨k, ?_⟩
      unfold hfcAux
      rw [hk]
      dsimp only
      rw [hchk]
      simp only [Bool.false_eq_true, if_false, hkept]
      rw [hCa]
      cases hai : s.aiSnake with
      | none => rfl
      | some a => simp [hA a hai, hf0f]

/-- C7: when the player's head and the AI's head both sit on the cell of the
single food there, exactly one snake consumes it — the player, by the
player-before-AI resolution order — and the food leaves the food set exactly
once; the AI snake is untouched. -/
theorem handleFood_tiebreak (s : GameState) (c : Cell) (f : Food) (a : Snake)
    (cellO : Nat → Nat → Cell)
    (hp : s.playerSnake.body.head? = some c)
    (hA : s.aiSnake = some a) (_haalive : a.alive = true)
    (hah : a.body.head? = some c)
    (hone : s.foods.filter (fun g => foodAtCell g c) = [f]) :
    (handleFoodCollisions s cellO).eatenLog = s.eatenLog ++ [(Eater.player, f)] ∧
    (∃ sp, (handleFoodCollisions s cellO).foods =
        s.foods.filter (fun g => !foodAtCell g c) ++ sp ∧
        ∀ g ∈ sp, foodAtCell g c = false) ∧
    (handleFoodCollisions s cellO).foods.countP (fun g => foodAtCell g c) = 0 ∧
    (handleFoodCollisions s cellO).aiSnake = some a := by
  obtain ⟨t, hbody⟩ : ∃ t, s.playerSnake.body = c :: t := by
    cases hb : s.playerSnake.body with
    | nil => rw [hb] at hp; cases hp
    | cons x xs =>
      rw [hb] at hp
      simp only [List.head?_cons, Option.some.injEq] at hp
      exact ⟨xs, by rw [hp]⟩
  have hs0p : ({ s with foods := [] } : GameState).playerSnake.body.head? = some c := hp
  have hs0A : ∀ a2, ({ s with foods := [] } : GameState).aiSnake = some a2 →
      a2.body.head? = some c := by
    intro a2 ha2
    have : some a = some a2 := by rw [← hA]; exact ha2
    cases this
    exact hah
  obtain ⟨k, hk⟩ := hfcAux_single cellO c f s.foods { s with foods := [] } hs0p hs0A hone
  have hfinal : handleFoodCollisions s cellO =
      { (consumeFood { s with foods := [] } Eater.player f (cellO k)) with
        foods := s.foods.filter (fun g => !foodAtCell g c) ++
          (consumeFood { s with foods := [] } Eater.player f (cellO k)).foods } := by
    unfold handleFoodCollisions
    rw [hk]
  obtain ⟨sp, hsp, hspprop⟩ :=
    consumeFood_foods { s with foods := [] } Eater.player f (cellO k)
  have hspc : ∀ g ∈ sp, foodAtCell g c = false := by
    intro g hg
    obtain ⟨_, hfree⟩ := hspprop g hg
    by_contra hcon
    have hgc : foodAtCell g c = true := by revert hcon; cases foodAtCell g c <;> simp
    have hcell : (⟨g.x, g.y⟩ : Cell) = c := by
      simp only [foodAtCell, Bool.and_eq_true, decide_eq_true_eq] at hgc
      cases g
      cases c
      simp_all
    rw [hcell] at hfree
    have : collisionAt { s with foods := [] } c = true := by
      unfold collisionAt
      have : s.playerSnake.body.any (fun x => x == c) = true := by
        rw [hbody]
        simp
      simp [this]
    rw [this] at hfree
    cases hfree
  have hspfoods : (consumeFood { s with foods := [] } Eater.player f (cellO k)).foods = sp := by
    rw [hsp]
    rfl
  refine ⟨?_, ⟨sp, ?_, hspc⟩, ?_, ?_⟩
  · rw [hfinal]
    show (consumeFood { s with foods := [] } Eater.player f (cellO k)).eatenLog =
      s.eatenLog ++ [(Eater.player, f)]
    rw [consumeFood_log]
  · rw [hfinal]
    show s.foods.filter (fun g => !foodAtCell g c) ++
        (consumeFood { s with foods := [] } Eater.player f (cellO k)).foods =
      s.foods.filter (fun g => !foodAtCell g c) ++ sp
    rw [hspfoods]
  · rw [hfinal]
    show (s.foods.filter (fun g => !foodAtCell g c) ++
        (consumeFood { s with foods := [] } Eater.player f (cellO k)).foods).countP
        (fun g => foodAtCell g c) = 0
    rw [hspfoods, List.countP_append]
    have h1 : (s.foods.filter (fun g => !foodAtCell g c)).countP
        (fun g => foodAtCell g c) = 0 := by
      rw [List.countP_eq_zero]
      intro g hg
      have := (List.mem_filter.mp hg).2
      revert this
      cases foodAtCell g c <;> simp
    have h2 : sp.countP (fun g => foodAtCell g c) = 0 := by
      rw [List.countP_eq_zero]
      intro g hg
      rw [hspc g hg]
      simp
    rw [h1, h2]
  · rw [hfinal]
    show (consumeFood { s with foods := [] } Eater.player f (cellO k)).aiSnake = some a
    rw [consumeFood_player_ai]
    exact hA

/-- A state whose player and AI heads both sit on the single food at (5,5). -/
def tieState : GameState :=
  { mode := Mode.ai, score := 0, tickInterval := BASE_TICK, speedBoost := 0,
    invisibleTailTicks := 0, gameTime := 0, playerDir := Direction.right,
    playerSnake := makeSnake [⟨5, 5⟩, ⟨4, 5⟩],
    aiSnake := some (makeSnake [⟨5, 5⟩, ⟨6, 5⟩]),
    foods := [{ x := 5, y := 5, type := FoodType.normal, subtype := none }],
    eatenLog := [], events := [] }

/-- C7 witness: on `tieState` the player (not the AI) logs the consumption
and no food remains on the contested cell. -/
theorem handleFood_tiebreak_witness :
    (handleFoodCollisions tieState fun _ _ => ⟨0, 0⟩).eatenLog =
      tieState.eatenLog ++
        [(Eater.player, { x := 5, y := 5, type := FoodType.normal, subtype := none })] ∧
    (handleFoodCollisions tieState fun _ _ => ⟨0, 0⟩).foods.countP
      (fun g => foodAtCell g ⟨5, 5⟩) = 0 := by
  have T := handleFood_tiebreak tieState ⟨5, 5⟩
    { x := 5, y := 5, type := FoodType.normal, subtype := none }
    (makeSnake [⟨5, 5⟩, ⟨6, 5⟩]) (fun _ _ => ⟨0, 0⟩)
    rfl rfl rfl rfl (by decide)
  exact ⟨T.1, T.2.2.1⟩

/-! ## C8 and C10: reachable-state invariants -/

/-- Number of special foods in a food list. -/
def countSpecial (l : List Food) : Nat := l.countP (fun g => g.type == FoodType.special)

/-- `consumeFood` never changes the number of special foods (its only spawn
is a normal one). -/
theorem consumeFood_countSpecial (s : GameState) (e : Eater) (f : Food)
    (cellO : Nat → Cell) :
    countSpecial (consumeFood s e f cellO).foods = countSpecial s.foods := by
  obtain ⟨sp, hsp, hprop⟩ := consumeFood_foods s e f cellO
  rw [hsp]
  unfold countSpecial
  rw [List.countP_append]
  have : sp.countP (fun g => g.type == FoodType.special) = 0 := by
    rw [List.countP_eq_zero]
    intro g hg
    rw [(hprop g hg).1]
    simp
  rw [this, Nat.add_zero]

/-- `consumeFood` either clamps the speed boost or leaves it unchanged. -/
theorem consumeFood_speedBoost (s : GameState) (e : Eater) (f : Food)
    (cellO : Nat → Cell) :
    (consumeFood s e f cellO).speedBoost = max 0 (s.speedBoost - 2) ∨
    (consumeFood s e f cellO).speedBoost = s.speedBoost := by
  by_cases hty : f.type = FoodType.normal
  · left
    rw [consumeFood_normal_eq s e f cellO hty]
    rw [(placeFood_fields (postNormal s e f) FoodType.normal cellO
      SpecialSubtype.bonus).2.2.2.1]
    cases e <;> cases hai : s.aiSnake <;> simp [postNormal, modifySnake, hai]
  · right
    unfold consumeFood
    rw [if_neg hty]
    cases hsub : f.subtype with
    | none => rfl
    | some st => cases st <;> cases e <;> cases hai : s.aiSnake <;> simp [modifySnake, hai]

/-- A state property preserved by every `consumeFood` call is preserved by
the whole food scan. -/
theorem hfcAux_state_pres (cellO : Nat → Nat → Cell) (P : GameState → Prop)
    (hC : ∀ s e f o, P s → P (consumeFood s e f o)) :
    ∀ (fs : List Food) (s : GameState), P s → P (hfcAux cellO fs s).2
  | [], _, h => h
  | f :: rest, s, h => by
    have hr := hfcAux_state_pres cellO P hC rest s h
    unfold hfcAux
    dsimp only
    by_cases h1 : ((hfcAux cellO rest s).2.playerSnake.body.head?.map
        (foodAtCell f)).getD false
    · rw [if_pos h1]
      exact hC _ _ _ _ hr
    · rw [if_neg h1]
      cases hai : (hfcAux cellO rest s).2.aiSnake with
      | none => exact hr
      | some a =>
        dsimp only
        by_cases h2 : a.alive && (a.body.head?.map (foodAtCell f)).getD false
        · rw [if_pos h2]
          exact hC _ _ _ _ hr
        · rw [if_neg h2]
          exact hr

/-- The original foods kept by the food scan form a sublist of the input. -/
theorem hfcAux_kept_sublist (cellO : Nat → Nat → Cell) :
    ∀ (fs : List Food) (s : GameState), (hfcAux cellO fs s).1.Sublist fs
  | [], _ => List.Sublist.refl _
  | f :: rest, s => by
    have hr := hfcAux_kept_sublist cellO rest s
    unfold hfcAux
    dsimp only
    by_cases h1 : ((hfcAux cellO rest s).2.playerSnake.body.head?.map
        (foodAtCell f)).getD false
    · rw [if_pos h1]
      exact hr.cons f
    · rw [if_neg h1]
      cases hai : (hfcAux cellO rest s).2.aiSnake with
      | none => exact hr.cons₂ f
      | some a =>
        dsimp only
        by_cases h2 : a.alive && (a.body.head?.map (foodAtCell f)).getD false
        · rw [if_pos h2]
          exact hr.cons f
        · rw [if_neg h2]
          exact hr.cons₂ f

/-- The food scan never increases the number of special foods. -/
theorem handleFood_countSpecial (s : GameState) (cellO : Nat → Nat → Cell) :
    countSpecial (handleFoodCollisions s cellO).foods ≤ countSpecial s.foods := by
  unfold handleFoodCollisions
  dsimp only
  have hkept := hfcAux_kept_sublist cellO s.foods { s with foods := [] }
  have hstate : countSpecial (hfcAux cellO s.foods { s with foods := [] }).2.foods = 0 := by
    have := hfcAux_state_pres cellO (fun st => countSpecial st.foods = 0)
      (fun s2 e f o h2 => by
        show countSpecial (consumeFood s2 e f o).foods = 0
        rw [consumeFood_countSpecial s2 e f o]
        exact h2)
      s.foods { s with foods := [] } (by simp [countSpecial])
    exact this
  show countSpecial ((hfcAux cellO s.foods { s with foods := [] }).1 ++
    (hfcAux cellO s.foods { s with foods := [] }).2.foods) ≤ countSpecial s.foods
  unfold countSpecial at hstate ⊢
  rw [List.countP_append, hstate, Nat.add_zero]
  exact hkept.countP_le _

/-- The food scan preserves a zero speed boost. -/
theorem handleFood_speedBoost (s : GameState) (cellO : Nat → Nat → Cell)
    (h : s.speedBoost = 0) : (handleFoodCollisions s cellO).speedBoost = 0 := by
  unfold handleFoodCollisions
  dsimp only
  show (hfcAux cellO s.foods { s with foods := [] }).2.speedBoost = 0
  exact hfcAux_state_pres cellO (fun st => st.speedBoost = 0)
    (fun s2 e f o h2 => by
      show (consumeFood s2 e f o).speedBoost = 0
      rcases consumeFood_speedBoost s2 e f o with hc | hc
      · rw [hc, h2]; decide
      · rw [hc, h2])
    s.foods { s with foods := [] } h

/-- The collision resolver only flips `alive` flags and logs events: the
foods and the speed boost are untouched. -/
theorem collisions_foods_speed (s : GameState) :
    (handleCollisionsSingleMode s).foods = s.foods ∧
    (handleCollisionsSingleMode s).speedBoost = s.speedBoost := by
  have hfoldp : ∀ (hd : Cell) (c : Cause) (l : List Cell) (st : GameState),
      (st.foods = s.foods ∧ st.speedBoost = s.speedBoost) →
      ((l.foldl (fun st seg => if seg = hd then killPlayer st c else st) st).foods = s.foods ∧
        (l.foldl (fun st seg => if seg = hd then killPlayer st c else st) st).speedBoost =
          s.speedBoost) := by
    intro hd c l st h
    refine foldl_preserve _ (fun u => u.foods = s.foods ∧ u.speedBoost = s.speedBoost)
      ?_ l st h
    intro u seg hu
    by_cases hseg : seg = hd
    · simpa [hseg, killPlayer] using hu
    · simpa [hseg] using hu
  have hfolda : ∀ (hd : Cell) (c : Cause) (l : List Cell) (st : GameState),
      (st.foods = s.foods ∧ st.speedBoost = s.speedBoost) →
      ((l.foldl (fun st seg => if seg = hd then killAi st c else st) st).foods = s.foods ∧
        (l.foldl (fun st seg => if seg = hd then killAi st c else st) st).speedBoost =
          s.speedBoost) := by
    intro hd c l st h
    refine foldl_preserve _ (fun u => u.foods = s.foods ∧ u.speedBoost = s.speedBoost)
      ?_ l st h
    intro u seg hu
    by_cases hseg : seg = hd
    · simpa [hseg, killAi] using hu
    · simpa [hseg] using hu
  have hsec : ∀ (hA : Cell) (tA b : List Cell) (st : GameState),
      (st.foods = s.foods ∧ st.speedBoost = s.speedBoost) →
      ((aiSection st hA tA b).foods = s.foods ∧
        (aiSection st hA tA b).speedBoost = s.speedBoost) := by
    intro hA tA b st h
    unfold aiSection
    dsimp only
    have h2 := hfolda hA Cause.self tA st h
    set s2 := tA.foldl (fun st seg => if seg = hA then killAi st Cause.self else st) st
    have h3 : ∀ u : GameState, (u.foods = s.foods ∧ u.speedBoost = s.speedBoost) →
        (((if u.playerSnake.alive &&
              (u.playerSnake.body.head?.map (fun ph => ph == hA)).getD false then
            { u with playerSnake := { u.playerSnake with alive := false },
                     aiSnake := u.aiSnake.map (fun a => { a with alive := false }),
                     events := u.events ++ [⟨Who.both, Cause.headToHead⟩] }
          else u) : GameState).foods = s.foods ∧
          ((if u.playerSnake.alive &&
              (u.playerSnake.body.head?.map (fun ph => ph == hA)).getD false then
            { u with playerSnake := { u.playerSnake with alive := false },
                     aiSnake := u.aiSnake.map (fun a => { a with alive := false }),
                     events := u.events ++ [⟨Who.both, Cause.headToHead⟩] }
          else u) : GameState).speedBoost = s.speedBoost) := by
      intro u hu
      by_cases hc : u.playerSnake.alive &&
          (u.playerSnake.body.head?.map (fun ph => ph == hA)).getD false
      · simpa [hc] using hu
      · simpa [hc] using hu
    have h4 := h3 s2 h2
    set s3 := if s2.playerSnake.alive &&
        (s2.playerSnake.body.head?.map (fun ph => ph == hA)).getD false then
      { s2 with playerSnake := { s2.playerSnake with alive := false },
                aiSnake := s2.aiSnake.map (fun a => { a with alive := false }),
                events := s2.events ++ [⟨Who.both, Cause.headToHead⟩] }
      else s2
    have h5 : ∀ u : GameState, (u.foods = s.foods ∧ u.speedBoost = s.speedBoost) →
        (((if u.playerSnake.alive then
            match u.playerSnake.body.head? with
            | none => u
            | some ph =>
              b.foldl (fun st seg => if seg = ph then killPlayer st Cause.intoBody else st) u
          else u) : GameState).foods = s.foods ∧
          ((if u.playerSnake.alive then
            match u.playerSnake.body.head? with
            | none => u
            | some ph =>
              b.foldl (fun st seg => if seg = ph then killPlayer st Cause.intoBody else st) u
          else u) : GameState).speedBoost = s.speedBoost) := by
      intro u hu
      by_cases hal : u.playerSnake.alive
      · rw [if_pos hal]
        cases hph : u.playerSnake.body.head? with
        | none => exact hu
        | some ph => exact hfoldp ph Cause.intoBody b u hu
      · rw [if_neg hal]
        exact hu
    have h6 := h5 s3 h4
    set s4 := if s3.playerSnake.alive then
        match s3.playerSnake.body.head? with
        | none => s3
        | some ph =>
          b.foldl (fun st seg => if seg = ph then killPlayer st Cause.intoBody else st) s3
      else s3
    by_cases hav : (s4.aiSnake.map (fun a => a.alive)).getD false
    · rw [if_pos hav]
      exact hfolda hA Cause.intoBody s4.playerSnake.body s4 h6
    · rw [if_neg hav]
      exact h6
  have h1 : ((playerSelfCheck s).foods = s.foods ∧
      (playerSelfCheck s).speedBoost = s.speedBoost) := by
    unfold playerSelfCheck
    by_cases hal : s.playerSnake.alive
    · rw [if_pos hal]
      cases hb : s.playerSnake.body with
      | nil => exact ⟨rfl, rfl⟩
      | cons h t => exact hfoldp h Cause.self t s ⟨rfl, rfl⟩
    · rw [if_neg hal]
      exact ⟨rfl, rfl⟩
  unfold handleCollisionsSingleMode
  dsimp only
  cases hai : (playerSelfCheck s).aiSnake with
  | none => exact h1
  | some a0 =>
    dsimp only
    by_cases haa : a0.alive
    · rw [if_pos haa]
      cases hab : a0.body with
      | nil => exact h1
      | cons headA tailA => exact hsec headA tailA (headA :: tailA) (playerSelfCheck s) h1
    · rw [if_neg haa]
      exact h1

/-- Neither the step engine nor the AI step touches foods or speed boost. -/
theorem step_foods_speed (s : GameState) (w : Eater) (d : Direction) :
    (stepSnakeInState s w d).foods = s.foods ∧
    (stepSnakeInState s w d).speedBoost = s.speedBoost := by
  cases w with
  | player => exact ⟨rfl, rfl⟩
  | ai =>
    unfold stepSnakeInState
    cases hai : s.aiSnake with
    | none => exact ⟨rfl, rfl⟩
    | some a => exact ⟨rfl, rfl⟩

/-- One tick never increases the special-food count, and preserves a zero
speed boost. -/
theorem gameTick_inv (s : GameState) (aiDir : Direction) (cellO : Nat → Nat → Cell) :
    countSpecial (gameTick s aiDir cellO).foods ≤ countSpecial s.foods ∧
    (s.speedBoost = 0 → (gameTick s aiDir cellO).speedBoost = 0) := by
  unfold gameTick
  dsimp only
  set s0 : GameState := { s with gameTime := s.gameTime + (s.tickInterval : ℚ) / 1000 }
  set s1 := stepSnakeInState s0 Eater.player s0.playerDir with hs1
  have h1 := step_foods_speed s0 Eater.player s0.playerDir
  set s2 := if s1.mode = Mode.ai && (s1.aiSnake.map (fun a => a.alive)).getD false
    then aiStepAbs s1 aiDir else s1 with hs2
  have h2 : s2.foods = s.foods ∧ s2.speedBoost = s.speedBoost := by
    rw [hs2]
    by_cases hc : s1.mode = Mode.ai && (s1.aiSnake.map (fun a => a.alive)).getD false
    · rw [if_pos hc]
      unfold aiStepAbs
      cases hai : s1.aiSnake with
      | none => exact h1
      | some a =>
        dsimp only
        by_cases haa : !a.alive
        · rw [if_pos haa]
          exact h1
        · rw [if_neg haa]
          have := step_foods_speed { s1 with aiSnake := some { a with dir := aiDir } }
            Eater.ai aiDir
          exact ⟨by rw [this.1]; exact h1.1, by rw [this.2]; exact h1.2⟩
    · rw [if_neg hc]
      exact h1
  set s3 := handleFoodCollisions s2 cellO with hs3
  have h3c : countSpecial s3.foods ≤ countSpecial s.foods := by
    rw [hs3]
    calc countSpecial (handleFoodCollisions s2 cellO).foods
        ≤ countSpecial s2.foods := handleFood_countSpecial s2 cellO
      _ = countSpecial s.foods := by rw [h2.1]
  have h3s : s.speedBoost = 0 → s3.speedBoost = 0 := by
    intro h0
    rw [hs3]
    exact handleFood_speedBoost s2 cellO (by rw [h2.2]; exact h0)
  set s4 := handleCollisionsSingleMode s3 with hs4
  have h4 := collisions_foods_speed s3
  constructor
  · by_cases hinv : 0 < (setSpeedFromScore s4).invisibleTailTicks
    · rw [if_pos hinv]
      show countSpecial (setSpeedFromScore s4).foods ≤ countSpecial s.foods
      show countSpecial s4.foods ≤ countSpecial s.foods
      rw [hs4, h4.1]
      exact h3c
    · rw [if_neg hinv]
      show countSpecial s4.foods ≤ countSpecial s.foods
      rw [hs4, h4.1]
      exact h3c
  · intro h0
    by_cases hinv : 0 < (setSpeedFromScore s4).invisibleTailTicks
    · rw [if_pos hinv]
      show (setSpeedFromScore s4).speedBoost = 0
      show s4.speedBoost = 0
      rw [hs4, h4.2]
      exact h3s h0
    · rw [if_neg hinv]
      show s4.speedBoost = 0
      rw [hs4, h4.2]
      exact h3s h0

/-- A fresh match has no special food, and a zero speed boost. -/
theorem initGame_inv (m : Mode) (p : Option Snake) (o : Nat → Cell) :
    countSpecial (initGame m p o).foods = 0 ∧ (initGame m p o).speedBoost = 0 := by
  unfold initGame
  dsimp only
  constructor
  · rcases placeFood_cases _ FoodType.normal o SpecialSubtype.bonus with hc | ⟨fd, hc, hty, _⟩
    · rw [hc]
      rfl
    · rw [hc]
      show countSpecial ([] ++ [fd]) = 0
      simp [countSpecial, hty]
  · rcases placeFood_cases _ FoodType.normal o SpecialSubtype.bonus with hc | ⟨fd, hc, _, _⟩ <;>
      rw [hc]

/-- The keydown handler only touches the stored direction. -/
theorem applyKey_inv (s : GameState) (k : Direction) :
    (applyKey s k).foods = s.foods ∧ (applyKey s k).speedBoost = s.speedBoost := by
  cases k <;> simp only [applyKey] <;> split <;> exact ⟨rfl, rfl⟩

/-- The special-food timer never leaves more than one special food behind. -/
theorem specialTimer_count (s : GameState) (coin : Bool) (cellO : Nat → Cell)
    (subO : SpecialSubtype) (h : countSpecial s.foods ≤ 1) :
    countSpecial (specialTimerFire s coin cellO subO).foods ≤ 1 := by
  unfold specialTimerFire
  by_cases hany : s.foods.any (fun f => f.type == FoodType.special)
  · rw [if_pos hany]
    exact h
  · rw [if_neg hany]
    by_cases hcoin : coin
    · rw [if_pos hcoin]
      have h0 : countSpecial s.foods = 0 := by
        unfold countSpecial
        rw [List.countP_eq_zero]
        intro g hg
        by_contra hcon
        refine hany ?_
        rw [List.any_eq_true]
        refine ⟨g, hg, ?_⟩
        revert hcon
        cases g.type == FoodType.special <;> simp
      rcases placeFood_cases s FoodType.special cellO subO with hc | ⟨fd, hc, _, _⟩
      · rw [hc]
        show countSpecial s.foods ≤ 1
        omega
      · rw [hc]
        show countSpecial (s.foods ++ [fd]) ≤ 1
        unfold countSpecial at h0 ⊢
        rw [List.countP_append, h0, Nat.zero_add]
        cases hd : fd.type == FoodType.special <;> simp [List.countP_cons, hd]
    · rw [if_neg hcoin]
      exact h

/-- The special-food timer does not touch the speed boost. -/
theorem specialTimer_speed (s : GameState) (coin : Bool) (cellO : Nat → Cell)
    (subO : SpecialSubtype) :
    (specialTimerFire s coin cellO subO).speedBoost = s.speedBoost := by
  unfold specialTimerFire
  by_cases hany : s.foods.any (fun f => f.type == FoodType.special)
  · rw [if_pos hany]
  · rw [if_neg hany]
    by_cases hcoin : coin
    · rw [if_pos hcoin]
      exact (placeFood_fields s FoodType.special cellO subO).2.2.2.1
    · rw [if_neg hcoin]

/-- C8: in every reachable state of a solo or vs-AI match at most one
special food exists: the periodic spawner only places one when none exists,
and no other operation creates one. -/
theorem special_food_exclusive (s : GameState) (h : Reachable s) :
    countSpecial s.foods ≤ 1 := by
  induction h with
  | init m p o =>
    rw [(initGame_inv m p o).1]
    omega
  | tick h aiDir cellO ih => exact le_trans (gameTick_inv _ aiDir cellO).1 ih
  | keydown h k ih =>
    show countSpecial (applyKey _ k).foods ≤ 1
    rw [(applyKey_inv _ k).1]
    exact ih
  | specialTick h coin cellO subO ih => exact specialTimer_count _ coin cellO subO ih
  | slowRevert h ih => exact ih

/-- C8 witness: a freshly initialised vs-AI match satisfies the invariant. -/
theorem special_food_exclusive_witness :
    countSpecial (initGame Mode.ai none fun _ => ⟨0, 0⟩).foods ≤ 1 :=
  special_food_exclusive _ (Reachable.init Mode.ai none fun _ => ⟨0, 0⟩)

/-- C10: in every reachable state the global speed boost equals 0 — it
starts at 0 and its only mutation is `max(0, speedBoost − 2)` — so the
recomputed tick interval depends on the score alone. -/
theorem speedBoost_always_zero (s : GameState) (h : Reachable s) :
    s.speedBoost = 0 ∧
    (setSpeedFromScore s).tickInterval =
      max MIN_TICK (BASE_TICK - Int.fdiv s.score 5 * 10) := by
  have h0 : s.speedBoost = 0 := by
    induction h with
    | init m p o => exact (initGame_inv m p o).2
    | tick h aiDir cellO ih => exact (gameTick_inv _ aiDir cellO).2 ih
    | keydown h k ih =>
      show (applyKey _ k).speedBoost = 0
      rw [(applyKey_inv _ k).2]
      exact ih
    | specialTick h coin cellO subO ih =>
      show (specialTimerFire _ coin cellO subO).speedBoost = 0
      rw [specialTimer_speed _ coin cellO subO]
      exact ih
    | slowRevert h ih => exact ih
  refine ⟨h0, ?_⟩
  show max MIN_TICK (BASE_TICK - Int.fdiv s.score 5 * 10 - s.speedBoost) =
    max MIN_TICK (BASE_TICK - Int.fdiv s.score 5 * 10)
  rw [h0, Int.sub_zero]

/-- C10 witness: after one tick of a fresh solo match the speed boost is 0
and the recomputed interval is the score-only formula. -/
theorem speedBoost_always_zero_witness :
    (gameTick (initGame Mode.single none fun _ => ⟨0, 0⟩) Direction.up
        fun _ _ => ⟨1, 1⟩).speedBoost = 0 :=
  (speedBoost_always_zero _
    (Reachable.tick (Reachable.init Mode.single none fun _ => ⟨0, 0⟩) Direction.up
      fun _ _ => ⟨1, 1⟩)).1

/-! ## C2: correctness and optimality of `bfsPath` -/

/-- A reflexive-symmetric bound on all pairs gives `Pairwise`. -/
theorem pairwise_of_forall_mem {α : Type _} {R : α → α → Prop} :
    ∀ (l : List α), (∀ a ∈ l, ∀ b ∈ l, R a b) → l.Pairwise R
  | [], _ => List.Pairwise.nil
  | a :: l, h =>
    List.Pairwise.cons
      (fun b hb => h a (List.mem_cons_self a l) b (List.mem_cons_of_mem _ hb))
      (pairwise_of_forall_mem l (fun x hx y hy =>
        h x (List.mem_cons_of_mem _ hx) y (List.mem_cons_of_mem _ hy)))

/-- The trivial path sitting at the start cell. -/
theorem pathTo_refl (start goal : Cell) (obs : List Cell) :
    PathTo start goal obs start [start] := by
  refine ⟨rfl, rfl, ?_, ?_⟩
  · exact List.chain'_singleton start
  · intro x hx
    cases hx

/-- Any path is nonempty. -/
theorem pathTo_ne_nil {start goal c : Cell} {obs : List Cell} {p : List Cell}
    (h : PathTo start goal obs c p) : p ≠ [] := by
  intro hnil
  rw [hnil] at h
  cases h.1

/-- Any path has at least one cell. -/
theorem pathTo_length_pos {start goal c : Cell} {obs : List Cell} {p : List Cell}
    (h : PathTo start goal obs c p) : 1 ≤ p.length := by
  cases hp : p with
  | nil => exact absurd hp (pathTo_ne_nil h)
  | cons a t => simp

/-- Extending a path by one passable neighbor hop. -/
theorem pathTo_extend {start goal c n : Cell} {obs : List Cell} {p : List Cell}
    (h : PathTo start goal obs c p) (hadj : Adj c n) (hpass : Passable goal obs n) :
    PathTo start goal obs n (p ++ [n]) := by
  obtain ⟨hhead, hlast, hchain, htail⟩ := h
  refine ⟨?_, ?_, ?_, ?_⟩
  · cases hp : p with
    | nil => exact absurd hp (pathTo_ne_nil ⟨hhead, hlast, hchain, htail⟩)
    | cons a t =>
      rw [hp] at hhead
      simpa using hhead
  · exact List.getLast?_concat p
  · rw [List.chain'_append]
    refine ⟨hchain, List.chain'_singleton n, ?_⟩
    intro x hx y hy
    rw [hlast] at hx
    simp only [List.head?_cons, Option.mem_def, Option.some.injEq] at hx hy
    rw [← hx, ← hy]
    exact hadj
  · intro x hx
    cases hp : p with
    | nil => exact absurd hp (pathTo_ne_nil ⟨hhead, hlast, hchain, htail⟩)
    | cons a t =>
      rw [hp] at hx htail
      simp only [List.cons_append, List.tail_cons] at hx
      rcases List.mem_append.mp hx with hx1 | hx2
      · exact htail x (by simpa using hx1)
      · rw [List.mem_singleton.mp hx2]
        exact hpass

/-- Decomposing a path of at least two cells into its last hop. -/
theorem pathTo_snoc_decomp {start goal c : Cell} {obs : List Cell} {p : List Cell}
    (h : PathTo start goal obs c p) (hlen : 2 ≤ p.length) :
    ∃ q d, p = q ++ [c] ∧ PathTo start goal obs d q ∧ Adj d c ∧
      Passable goal obs c ∧ q.length + 1 = p.length := by
  obtain ⟨hhead, hlast, hchain, htail⟩ := h
  induction p using List.reverseRecOn with
  | nil => cases hhead
  | append_singleton q c2 ih =>
    clear ih
    have hc2 : c2 = c := by
      rw [List.getLast?_concat] at hlast
      exact Option.some.inj hlast
    subst hc2
    have hqne : q ≠ [] := by
      intro hq
      rw [hq] at hlen
      simp at hlen
    obtain ⟨d, hd⟩ : ∃ d, q.getLast? = some d := by
      cases hq : q with
      | nil => exact absurd hq hqne
      | cons a t => exact ⟨(a :: t).getLast (by simp), List.getLast?_eq_getLast _ _⟩
    have hchain2 := List.chain'_append.mp hchain
    refine ⟨q, d, rfl, ⟨?_, hd, hchain2.1, ?_⟩, ?_, ?_, ?_⟩
    · cases hq : q with
      | nil => exact absurd hq hqne
      | cons a t =>
        rw [hq] at hhead
        simpa using hhead
    · intro x hx
      obtain ⟨a, t, hq⟩ : ∃ a t, q = a :: t := by
        cases q with
        | nil => exact absurd rfl hqne
        | cons a t => exact ⟨a, t, rfl⟩
      subst hq
      refine htail x ?_
      exact List.mem_append_left _ (by simpa using hx)
    · refine hchain2.2.2 d ?_ c2 ?_
      · rw [hd]; rfl
      · rfl
    · refine htail c2 ?_
      obtain ⟨a, t, hq⟩ : ∃ a t, q = a :: t := by
        cases q with
        | nil => exact absurd rfl hqne
        | cons a t => exact ⟨a, t, rfl⟩
      subst hq
      exact List.mem_append_right _ (List.mem_singleton.mpr rfl)
    · simp

/-- A path of a single cell goes from the start to the start. -/
theorem pathTo_length_one {start goal c : Cell} {obs : List Cell} {p : List Cell}
    (h : PathTo start goal obs c p) (hlen : p.length ≤ 1) : c = start := by
  obtain ⟨hhead, hlast, _, _⟩ := h
  cases hp : p with
  | nil => rw [hp] at hhead; cases hhead
  | cons a t =>
    rw [hp] at hhead hlast hlen
    cases ht : t with
    | nil =>
      rw [ht] at hlast
      simp only [List.head?_cons, Option.some.injEq] at hhead
      simp only [List.getLast?_singleton, Option.some.injEq] at hlast
      rw [← hlast, ← hhead]
    | cons b t2 =>
      rw [ht] at hlen
      simp at hlen

/-- Walking a whole path through a neighbor-closed set. -/
theorem pathTo_mem_closed {start goal : Cell} {obs : List Cell} (V : List Cell)
    (hstart : start ∈ V)
    (hclosed : ∀ v ∈ V, ∀ n, Adj v n → Passable goal obs n → n ∈ V) :
    ∀ (p : List Cell) (a c : Cell), p.head? = some a → a ∈ V → p.Chain' Adj →
      (∀ x ∈ p.tail, Passable goal obs x) → p.getLast? = some c → c ∈ V
  | [], a, c, hh, _, _, _, _ => by cases hh
  | [x], a, c, hh, ha, _, _, hl => by
    simp only [List.head?_cons, Option.some.injEq] at hh
    simp only [List.getLast?_singleton, Option.some.injEq] at hl
    rw [← hl, hh]
    exact ha
  | x :: y :: t, a, c, hh, ha, hchain, htail, hl => by
    simp only [List.head?_cons, Option.some.injEq] at hh
    rw [← hh] at ha
    have hadj : Adj x y := (List.chain'_cons.mp hchain).1
    have hy : y ∈ V := hclosed x ha y hadj
      (htail y (by simp))
    refine pathTo_mem_closed V hstart hclosed (y :: t) y c rfl hy
      (List.chain'_cons.mp hchain).2 ?_ ?_
    · intro z hz
      exact htail z (List.mem_cons_of_mem _ hz)
    · simpa using hl
  termination_by p => p.length

/-- The grid as a finite set of cells. -/
def gridCells : Finset Cell :=
  (Finset.range 30 ×ˢ Finset.range 30).image (fun ab => ⟨(ab.1 : Int), (ab.2 : Int)⟩)

/-- There are exactly `GRID * GRID` grid cells. -/
theorem gridCells_card : gridCells.card = 900 := by
  unfold gridCells
  rw [Finset.card_image_of_injective _ (fun ab1 ab2 h => by
    cases ab1
    cases ab2
    simp only [Cell.mk.injEq, Int.natCast_inj] at h
    simp [h.1, h.2])]
  simp

/-- Cells inside the grid belong to `gridCells`. -/
theorem mem_gridCells (v : Cell) (h : insideGrid v = true) : v ∈ gridCells := by
  have hx0 : 0 ≤ v.x ∧ v.x < 30 ∧ 0 ≤ v.y ∧ v.y < 30 := by
    simp only [insideGrid, GRID, Bool.and_eq_true, decide_eq_true_eq] at h
    exact ⟨h.1.1.1, h.1.1.2, h.1.2, h.2⟩
  refine Finset.mem_image.mpr ⟨(v.x.toNat, v.y.toNat), ?_, ?_⟩
  · refine Finset.mem_product.mpr ⟨?_, ?_⟩ <;>
      simp only [Finset.mem_range] <;> omega
  · show (⟨(v.x.toNat : Int), (v.y.toNat : Int)⟩ : Cell) = v
    rw [Int.toNat_of_nonneg hx0.1, Int.toNat_of_nonneg hx0.2.2.1]

/-- A duplicate-free list of cells that are the start cell or inside the
grid has at most 901 elements. -/
theorem visited_length_le (st : Cell) (V : List Cell) (hnd : V.Nodup)
    (hdom : ∀ v ∈ V, v = st ∨ insideGrid v = true) : V.length ≤ 901 := by
  have hsub : V.toFinset ⊆ insert st gridCells := by
    intro v hv
    rcases hdom v (List.mem_toFinset.mp hv) with h | h
    · rw [h]
      exact Finset.mem_insert_self st _
    · exact Finset.mem_insert_of_mem (mem_gridCells v h)
  calc V.length = V.toFinset.card := (List.toFinset_card_of_nodup hnd).symm
    _ ≤ (insert st gridCells).card := Finset.card_le_card hsub
    _ ≤ gridCells.card + 1 := Finset.card_insert_le st gridCells
    _ = 901 := by rw [gridCells_card]

/-- Specification of the neighbor-expansion fold: it appends to the queue
one fresh entry per admitted neighbor (in order), pushes exactly those cells
onto the visited list, admits only passable unvisited cells, and afterwards
every passable neighbor is visited. -/
theorem expandFold_spec (goal : Cell) (obs : List Cell) (path : List Cell) :
    ∀ (ns : List Cell) (q0 : List QEntry) (V0 : List Cell),
    ∃ news : List QEntry,
      (ns.foldl (expandFold goal obs path) (q0, V0)).1 = q0 ++ news ∧
      (ns.foldl (expandFold goal obs path) (q0, V0)).2 =
        (news.map Prod.fst).reverse ++ V0 ∧
      (∀ e ∈ news, e.1 ∈ ns ∧ e.2 = path ++ [e.1] ∧ Passable goal obs e.1 ∧ e.1 ∉ V0) ∧
      (news.map Prod.fst).Nodup ∧
      (∀ n ∈ ns, Passable goal obs n →
        n ∈ (ns.foldl (expandFold goal obs path) (q0, V0)).2)
  | [], q0, V0 => ⟨[], by simp, by simp, by simp, by simp, by simp⟩
  | n :: rest, q0, V0 => by
    have hskip : ∀ (hstep : expandFold goal obs path (q0, V0) n = (q0, V0)),
        (¬ Passable goal obs n ∨ n ∈ V0) →
        ∃ news : List QEntry,
          ((n :: rest).foldl (expandFold goal obs path) (q0, V0)).1 = q0 ++ news ∧
          ((n :: rest).foldl (expandFold goal obs path) (q0, V0)).2 =
            (news.map Prod.fst).reverse ++ V0 ∧
          (∀ e ∈ news, e.1 ∈ n :: rest ∧ e.2 = path ++ [e.1] ∧
            Passable goal obs e.1 ∧ e.1 ∉ V0) ∧
          (news.map Prod.fst).Nodup ∧
          (∀ m ∈ n :: rest, Passable goal obs m →
            m ∈ ((n :: rest).foldl (expandFold goal obs path) (q0, V0)).2) := by
      intro hstep hside
      obtain ⟨news, h1, h2, h3, h4, h5⟩ := expandFold_spec goal obs path rest q0 V0
      rw [List.foldl_cons, hstep]
      refine ⟨news, h1, h2, ?_, h4, ?_⟩
      · intro e he
        obtain ⟨ha, hb, hc, hd⟩ := h3 e he
        exact ⟨List.mem_cons_of_mem _ ha, hb, hc, hd⟩
      · intro m hm hpass
        rcases List.mem_cons.mp hm with hmn | hmr
        · subst hmn
          rcases hside with hside | hside
          · exact absurd hpass hside
          · rw [h2]
            exact List.mem_append_right _ hside
        · exact h5 m hmr hpass
    by_cases h1 : insideGrid n
    · by_cases h2 : n ∈ V0
      · have hstep : expandFold goal obs path (q0, V0) n = (q0, V0) := by
          unfold expandFold
          rw [h1]
          simp only [Bool.not_true, Bool.false_eq_true, if_false]
          rw [if_pos h2]
        exact hskip hstep (Or.inr h2)
      · by_cases h3 : n ∈ obs ∧ n ≠ goal
        · have hstep : expandFold goal obs path (q0, V0) n = (q0, V0) := by
            unfold expandFold
            rw [h1]
            simp only [Bool.not_true, Bool.false_eq_true, if_false]
            rw [if_neg h2, if_pos h3]
          refine hskip hstep (Or.inl ?_)
          intro hpass
          rcases hpass.2 with ho | ho
          · exact ho h3.1
          · exact h3.2 ho
        · have hpassn : Passable goal obs n := by
            refine ⟨h1, ?_⟩
            by_cases ho : n ∈ obs
            · right
              by_contra hg
              exact h3 ⟨ho, hg⟩
            · left
              exact ho
          have hstep : expandFold goal obs path (q0, V0) n =
              (q0 ++ [(n, path ++ [n])], n :: V0) := by
            unfold expandFold
            rw [h1]
            simp only [Bool.not_true, Bool.false_eq_true, if_false]
            rw [if_neg h2, if_neg h3]
          obtain ⟨news2, g1, g2, g3, g4, g5⟩ :=
            expandFold_spec goal obs path rest (q0 ++ [(n, path ++ [n])]) (n :: V0)
          rw [List.foldl_cons, hstep]
          refine ⟨(n, path ++ [n]) :: news2, ?_, ?_, ?_, ?_, ?_⟩
          · rw [g1, List.append_assoc]
            rfl
          · rw [g2]
            simp only [List.map_cons, List.reverse_cons, List.append_assoc]
            rfl
          · intro e he
            rcases List.mem_cons.mp he with hee | hee
            · subst hee
              exact ⟨List.mem_cons_self _ _, rfl, hpassn, h2⟩
            · obtain ⟨ha, hb, hc, hd⟩ := g3 e hee
              refine ⟨List.mem_cons_of_mem _ ha, hb, hc, ?_⟩
              intro hcon
              exact hd (List.mem_cons_of_mem _ hcon)
          · simp only [List.map_cons, List.nodup_cons]
            refine ⟨?_, g4⟩
            intro hcon
            obtain ⟨e, he, heq⟩ := List.mem_map.mp hcon
            have := (g3 e he).2.2.2
            rw [heq] at this
            exact this (List.mem_cons_self _ _)
          · intro m hm hpass
            rcases List.mem_cons.mp hm with hmn | hmr
            · subst hmn
              rw [g2]
              exact List.mem_append_right _ (List.mem_cons_self _ _)
            · exact g5 m hmr hpass
    · have hfalse : insideGrid n = false := by
        revert h1
        cases insideGrid n <;> simp
      have hstep : expandFold goal obs path (q0, V0) n = (q0, V0) := by
        unfold expandFold
        rw [hfalse]
        rfl
      refine hskip hstep (Or.inl ?_)
      intro hpass
      rw [hpass.1] at hfalse
      cases hfalse

/-- The BFS loop invariant, relating the queue and visited list to the
reachability structure of the grid.  Queue entries carry valid shortest
paths; their lengths are sorted and spread by at most one; every cell with a
path no longer than the current front entry has been visited; processed
(visited, dequeued) cells have all passable neighbors visited; the goal is
never processed. -/
structure BfsInv (start goal : Cell) (obs : List Cell)
    (q : List QEntry) (V : List Cell) : Prop where
  entries_path : ∀ e ∈ q, PathTo start goal obs e.1 e.2
  entries_min : ∀ e ∈ q, ∀ p, PathTo start goal obs e.1 p → e.2.length ≤ p.length
  sorted : q.Pairwise (fun e e2 => e.2.length ≤ e2.2.length)
  spread : ∀ e ∈ q, ∀ e2 ∈ q, e.2.length ≤ e2.2.length + 1
  enq_V : ∀ e ∈ q, e.1 ∈ V
  V_nodup : V.Nodup
  V_dom : ∀ v ∈ V, v = start ∨ insideGrid v = true
  start_V : start ∈ V
  closed : ∀ v ∈ V, v ∉ q.map Prod.fst → ∀ n, Adj v n → Passable goal obs n → n ∈ V
  goal_pending : goal ∈ V → goal ∈ q.map Prod.fst
  discovered : ∀ c p, PathTo start goal obs c p →
    ∀ e0 q2, q = e0 :: q2 → p.length ≤ e0.2.length → c ∈ V

/-- With an empty queue the invariant's closure makes the visited set closed
under passable hops, so no path can reach the goal (it would have been
enqueued, but the queue is empty). -/
theorem bfsInv_empty_no_path {start goal : Cell} {obs : List Cell} {V : List Cell}
    (inv : BfsInv start goal obs [] V) :
    ∀ p, ¬ PathTo start goal obs goal p := by
  intro p hp
  have hclosed : ∀ v ∈ V, ∀ n, Adj v n → Passable goal obs n → n ∈ V := by
    intro v hv n hadj hpass
    exact inv.closed v hv (by simp) n hadj hpass
  have hgoal : goal ∈ V :=
    pathTo_mem_closed V inv.start_V hclosed p start goal hp.1 inv.start_V
      hp.2.2.1 hp.2.2.2 hp.2.1
  have := inv.goal_pending hgoal
  simp at this

/-- Main induction for `bfsAux`: under the invariant and with enough fuel,
a returned path is a shortest path to the goal, and `none` means no path
exists. -/
theorem bfsAux_correct (start goal : Cell) (obs : List Cell) (fuel : Nat) :
    ∀ (q : List QEntry) (V : List Cell),
    BfsInv start goal obs q V →
    q.length + (901 - V.length) ≤ fuel →
    (∀ p, bfsAux goal obs fuel q V = some p →
      PathTo start goal obs goal p ∧
      ∀ p2, PathTo start goal obs goal p2 → p.length ≤ p2.length) ∧
    (bfsAux goal obs fuel q V = none → ∀ p2, ¬ PathTo start goal obs goal p2) := by
  induction fuel with
  | zero =>
    intro q V inv hfuel
    have hq : q = [] := by
      cases q with
      | nil => rfl
      | cons e q2 => simp at hfuel
    subst hq
    constructor
    · intro p hp
      cases hp
    · intro _ p2
      exact bfsInv_empty_no_path inv p2
  | succ fuel ih =>
    intro q V inv hfuel
    cases q with
    | nil =>
      constructor
      · intro p hp
        cases hp
      · intro _ p2
        exact bfsInv_empty_no_path inv p2
    | cons e q2 =>
      obtain ⟨c1, p1⟩ := e
      by_cases hc : c1 = goal
      · have hbfs : bfsAux goal obs (fuel + 1) ((c1, p1) :: q2) V = some p1 := by
          conv_lhs => unfold bfsAux
          rw [if_pos hc]
        constructor
        · intro p hp
          rw [hbfs] at hp
          obtain rfl : p1 = p := Option.some.inj hp
          constructor
          · have := inv.entries_path (c1, p1) (List.mem_cons_self _ _)
            rw [hc] at this
            exact this
          · intro p2 h2
            refine inv.entries_min (c1, p1) (List.mem_cons_self _ _) p2 ?_
            show PathTo start goal obs c1 p2
            rw [hc]
            exact h2
        · intro hnone
          rw [hbfs] at hnone
          cases hnone
      · obtain ⟨news, hq1, hV1, hprops, hnodup, hcover⟩ :=
          expandFold_spec goal obs p1 (neighborsOf c1) q2 V
        have hheadpath : PathTo start goal obs c1 p1 :=
          inv.entries_path (c1, p1) (List.mem_cons_self _ _)
        have hp1pos : 1 ≤ p1.length := pathTo_length_pos hheadpath
        have hlen_news : ∀ e ∈ news, e.2.length = p1.length + 1 := by
          intro e he
          rw [(hprops e he).2.1]
          simp
        have hpath_news : ∀ e ∈ news, PathTo start goal obs e.1 e.2 := by
          intro e he
          rw [(hprops e he).2.1]
          exact pathTo_extend hheadpath (hprops e he).1 (hprops e he).2.2.1
        have hmin_news : ∀ e ∈ news, ∀ p, PathTo start goal obs e.1 p →
            e.2.length ≤ p.length := by
          intro e he p hp
          rw [hlen_news e he]
          by_contra hcon
          push_neg at hcon
          have hdisc := inv.discovered e.1 p hp (c1, p1) q2 rfl
            (by show p.length ≤ p1.length; omega)
          exact (hprops e he).2.2.2 hdisc
        have hsortedhead : ∀ e ∈ q2, p1.length ≤ e.2.length :=
          (List.pairwise_cons.mp inv.sorted).1
        have hsorted2 : q2.Pairwise (fun e e2 => e.2.length ≤ e2.2.length) :=
          (List.pairwise_cons.mp inv.sorted).2
        have hspreadhead : ∀ e ∈ q2, e.2.length ≤ p1.length + 1 := by
          intro e he
          exact inv.spread e (List.mem_cons_of_mem _ he) (c1, p1) (List.mem_cons_self _ _)
        -- the new invariant
        have inv2 : BfsInv start goal obs (q2 ++ news)
            ((news.map Prod.fst).reverse ++ V) := by
          refine ⟨?_, ?_, ?_, ?_, ?_, ?_, ?_, ?_, ?_, ?_, ?_⟩
          · intro e he
            rcases List.mem_append.mp he with h | h
            · exact inv.entries_path e (List.mem_cons_of_mem _ h)
            · exact hpath_news e h
          · intro e he
            rcases List.mem_append.mp he with h | h
            · exact inv.entries_min e (List.mem_cons_of_mem _ h)
            · exact hmin_news e h
          · rw [List.pairwise_append]
            refine ⟨hsorted2, ?_, ?_⟩
            · exact pairwise_of_forall_mem news (fun a ha b hb => by
                rw [hlen_news a ha, hlen_news b hb])
            · intro a ha b hb
              rw [hlen_news b hb]
              exact hspreadhead a ha
          · intro e he e2 he2
            rcases List.mem_append.mp he with h | h <;>
              rcases List.mem_append.mp he2 with h2 | h2
            · exact inv.spread e (List.mem_cons_of_mem _ h) e2 (List.mem_cons_of_mem _ h2)
            · rw [hlen_news e2 h2]
              calc e.2.length ≤ p1.length + 1 := hspreadhead e h
                _ ≤ p1.length + 1 + 1 := by omega
            · rw [hlen_news e h]
              have := hsortedhead e2 h2
              omega
            · rw [hlen_news e h, hlen_news e2 h2]
              omega
          · intro e he
            rcases List.mem_append.mp he with h | h
            · exact List.mem_append_right _ (inv.enq_V e (List.mem_cons_of_mem _ h))
            · refine List.mem_append_left _ ?_
              rw [List.mem_reverse]
              exact List.mem_map_of_mem Prod.fst h
          · rw [List.nodup_append]
            refine ⟨List.nodup_reverse.mpr hnodup, inv.V_nodup, ?_⟩
            intro x hx
            rw [List.mem_reverse] at hx
            obtain ⟨e, he, heq⟩ := List.mem_map.mp hx
            rw [← heq]
            exact (hprops e he).2.2.2
          · intro v hv
            rcases List.mem_append.mp hv with h | h
            · rw [List.mem_reverse] at h
              obtain ⟨e, he, heq⟩ := List.mem_map.mp h
              right
              rw [← heq]
              exact (hprops e he).2.2.1.1
            · exact inv.V_dom v h
          · exact List.mem_append_right _ inv.start_V
          · intro v hv hvq n hadj hpass
            rcases List.mem_append.mp hv with h | h
            · exfalso
              rw [List.mem_reverse] at h
              refine hvq ?_
              rw [List.map_append]
              exact List.mem_append_right _ h
            · by_cases hvold : v ∈ ((c1, p1) :: q2).map Prod.fst
              · rcases List.mem_cons.mp hvold with hvc | hvq2
                · subst hvc
                  have := hcover n hadj hpass
                  rw [hV1] at this
                  exact this
                · exfalso
                  refine hvq ?_
                  rw [List.map_append]
                  exact List.mem_append_left _ hvq2
              · exact List.mem_append_right _
                  (inv.closed v h hvold n hadj hpass)
          · intro hg
            rcases List.mem_append.mp hg with h | h
            · rw [List.mem_reverse] at h
              rw [List.map_append]
              exact List.mem_append_right _ h
            · have := inv.goal_pending h
              rcases List.mem_cons.mp this with hgc | hgq
              · exact absurd hgc.symm hc
              · rw [List.map_append]
                exact List.mem_append_left _ hgq
          · intro c p hp e0 q2x heq hplen
            have he0 : e0 ∈ q2 ++ news := by
              rw [heq]
              exact List.mem_cons_self _ _
            have hl0 : e0.2.length ≤ p1.length + 1 := by
              rcases List.mem_append.mp he0 with h | h
              · exact hspreadhead e0 h
              · rw [hlen_news e0 h]
            by_cases hple : p.length ≤ p1.length
            · exact List.mem_append_right _
                (inv.discovered c p hp (c1, p1) q2 rfl hple)
            · have hpexact : p.length = p1.length + 1 := by omega
              have hp2 : 2 ≤ p.length := by omega
              obtain ⟨q3, d, hpq, hpathq3, hadj, hpassc, hlen3⟩ :=
                pathTo_snoc_decomp hp hp2
              have hd : d ∈ V :=
                inv.discovered d q3 hpathq3 (c1, p1) q2 rfl
                  (by show q3.length ≤ p1.length; omega)
              by_cases hdq : d ∈ ((c1, p1) :: q2).map Prod.fst
              · rcases List.mem_cons.mp hdq with hdc | hdq2
                · have hdc2 : d = c1 := hdc
                  have hmemn : c ∈ neighborsOf c1 := by
                    rw [← hdc2]
                    exact hadj
                  have := hcover c hmemn hpassc
                  rw [hV1] at this
                  exact this
                · exfalso
                  obtain ⟨ed, hed, hedeq⟩ := List.mem_map.mp hdq2
                  have hedmin := inv.entries_min ed (List.mem_cons_of_mem _ hed) q3
                    (by rw [hedeq]; exact hpathq3)
                  cases hq2 : q2 with
                  | nil =>
                    rw [hq2] at hed
                    cases hed
                  | cons f t =>
                    have hfe0 : f = e0 := by
                      rw [hq2] at heq
                      simp only [List.cons_append, List.cons.injEq] at heq
                      exact heq.1
                    have hfed : f.2.length ≤ ed.2.length := by
                      rw [hq2] at hed
                      rcases List.mem_cons.mp hed with hh | hh
                      · rw [hh]
                      · rw [hq2] at hsorted2
                        exact (List.pairwise_cons.mp hsorted2).1 ed hh
                    rw [hfe0] at hfed
                    omega
              · exact List.mem_append_right _
                  (inv.closed d hd hdq c hadj hpassc)
        -- fuel accounting
        have hV2len : ((news.map Prod.fst).reverse ++ V).length =
            news.length + V.length := by
          rw [List.length_append, List.length_reverse, List.length_map]
        have hVbound : ((news.map Prod.fst).reverse ++ V).length ≤ 901 :=
          visited_length_le start _ inv2.V_nodup inv2.V_dom
        have hfuel2 : (q2 ++ news).length +
            (901 - ((news.map Prod.fst).reverse ++ V).length) ≤ fuel := by
          rw [List.length_append, hV2len]
          rw [hV2len] at hVbound
          simp only [List.length_cons] at hfuel
          omega
        have hbfs : bfsAux goal obs (fuel + 1) ((c1, p1) :: q2) V =
            bfsAux goal obs fuel (q2 ++ news) ((news.map Prod.fst).reverse ++ V) := by
          conv_lhs => unfold bfsAux
          rw [if_neg hc]
          dsimp only
          rw [hq1, hV1]
        rw [hbfs]
        exact ih (q2 ++ news) ((news.map Prod.fst).reverse ++ V) inv2 hfuel2

/-- C2: for every start cell, goal cell and obstacle set (in the game, the
union of all snake body cells, with the goal always traversable even when
listed as an obstacle): whenever a 4-connected path inside the grid avoiding
the obstacles exists, `bfsPath` returns one, and any returned path is a
valid path whose cell count — hence hop count — is minimal among all such
paths; when no path exists it returns `none`. -/
theorem bfsPath_shortest (start goal : Cell) (obstacles : List Cell) :
    (∀ p, bfsPath start goal obstacles = some p →
      PathTo start goal obstacles goal p ∧
      ∀ p2, PathTo start goal obstacles goal p2 → p.length ≤ p2.length) ∧
    ((∃ p2, PathTo start goal obstacles goal p2) →
      ∃ p, bfsPath start goal obstacles = some p) ∧
    (bfsPath start goal obstacles = none →
      ∀ p2, ¬ PathTo start goal obstacles goal p2) := by
  have inv0 : BfsInv start goal obstacles [(start, [start])] [start] := by
    refine ⟨?_, ?_, ?_, ?_, ?_, ?_, ?_, ?_, ?_, ?_, ?_⟩
    · intro e he
      rw [List.mem_singleton] at he
      subst he
      exact pathTo_refl start goal obstacles
    · intro e he p hp
      rw [List.mem_singleton] at he
      subst he
      show ([start] : List Cell).length ≤ p.length
      simpa using pathTo_length_pos hp
    · simp
    · intro e he e2 he2
      rw [List.mem_singleton] at he he2
      subst he
      subst he2
      simp
    · intro e he
      rw [List.mem_singleton] at he
      subst he
      simp
    · simp
    · intro v hv
      left
      exact List.mem_singleton.mp hv
    · simp
    · intro v hv hvq n hadj hpass
      exfalso
      refine hvq ?_
      rw [List.mem_singleton.mp hv]
      simp
    · intro hg
      rw [List.mem_singleton.mp hg]
      simp
    · intro c p hp e0 q2 heq hplen
      have he0 : e0 = (start, [start]) := by
        have := List.cons_eq_cons.mp heq.symm
        exact this.1
      rw [he0] at hplen
      simp only [List.length_singleton] at hplen
      rw [pathTo_length_one hp hplen]
      simp
  have hfuel0 : ([(start, [start])] : List QEntry).length +
      (901 - ([start] : List Cell).length) ≤ BFS_FUEL := by
    simp [BFS_FUEL]
  have H := bfsAux_correct start goal obstacles BFS_FUEL [(start, [start])] [start]
    inv0 hfuel0
  refine ⟨H.1, ?_, H.2⟩
  intro hex
  obtain ⟨p2, hp2⟩ := hex
  cases hres : bfsPath start goal obstacles with
  | some p => exact ⟨p, rfl⟩
  | none => exact absurd hp2 (H.2 hres p2)

/-- C2 witness: around the obstacle at (0,1), the returned path from (0,0)
to (0,2) is valid, and no longer than a concrete 7-cell detour. -/
theorem bfsPath_shortest_witness :
    PathTo ⟨0, 0⟩ ⟨0, 2⟩ [⟨0, 1⟩] ⟨0, 2⟩
      [⟨0, 0⟩, ⟨1, 0⟩, ⟨1, 1⟩, ⟨1, 2⟩, ⟨0, 2⟩] ∧
    ([⟨0, 0⟩, ⟨1, 0⟩, ⟨1, 1⟩, ⟨1, 2⟩, ⟨0, 2⟩] : List Cell).length ≤
      ([⟨0, 0⟩, ⟨1, 0⟩, ⟨2, 0⟩, ⟨2, 1⟩, ⟨2, 2⟩, ⟨1, 2⟩, ⟨0, 2⟩] : List Cell).length := by
  have T := (bfsPath_shortest ⟨0, 0⟩ ⟨0, 2⟩ [⟨0, 1⟩]).1
    [⟨0, 0⟩, ⟨1, 0⟩, ⟨1, 1⟩, ⟨1, 2⟩, ⟨0, 2⟩] (by decide)
  exact ⟨T.1, T.2 _ (by decide)⟩

end SnakeGame
